import Mathlib

/-!
Shallow embedding of the type/model builder of `coze-sdk-gen`
(package `parser`, file `parser/parser.go`), together with theorems
checking the natural-language specification against it.

Modelling conventions:
* Go pointers `*Ty` are modelled as indices (`TyRef := Nat`) into an arena
  (`Heap := List TyNode`).  Pointer identity becomes index equality, exactly
  mirroring how the Go code deduplicates and hashes types by pointer.
  In Go a `*Ty` stored in the graph is always a valid pointer; an
  out-of-range index in the model has no Go counterpart, and the few places
  that guard against it are marked below.
* Go maps have no deterministic iteration order.  Wherever the source
  iterates over a map (`range` on `Properties`, on `config.RenameTypes`,
  on `config.ChangeFields`, ...), the model takes the iteration order as an
  explicit association-list parameter: each list is one possible iteration
  order of the map, and any permutation of it is an equally valid run of
  the program.
* The recursive `convertSchema` has no termination guarantee in the source
  (and indeed does not terminate on cyclic documents), so it is embedded
  with an explicit fuel parameter; `ConvErr.fuel` is the result of running
  out of fuel.  A run of the Go program corresponds to an arbitrarily large
  fuel value, so `∀ fuel, result = .error .fuel` means the Go recursion
  never returns.
-/

namespace CozeSdkGen

/-- `TyKind` from the source (`primimtive`/`object`/`array`/`map` string
constants).  `unspecified` is the zero value `""` of the Go string type,
which a `Ty` keeps when `convertSchema` meets a schema without a `type`. -/
inductive TyKind where
  | unspecified
  | primitive
  | object
  | array
  | map
deriving DecidableEq, Repr

/-- `PrimitiveKind` from the source. -/
inductive PrimitiveKind where
  | int
  | float
  | string
  | bool
  | binary
  | unknown
deriving DecidableEq, Repr

/-- `FieldRequirementChange` from the source. -/
inductive FieldRequirementChange where
  | noChange
  | required
  | optional
deriving DecidableEq, Repr

/-- `FieldModification` from the source: requirement change plus default. -/
structure FieldModification where
  requirement : FieldRequirementChange := .noChange
  default : String := ""
deriving DecidableEq, Repr

/-- `TyEnumValue` from the source.  The Go field `Val` has type
`interface{}` holding the raw enum literal; the literal is opaque to every
algorithm in the parser, so it is modelled as its printed form. -/
structure TyEnumValue where
  name : String := ""
  val : String := ""
deriving DecidableEq, Repr

/-- A Go `*Ty` pointer: an index into the arena (`Heap`). -/
abbrev TyRef := Nat

/-- A field of an object type (`TyField` in the source).  `type` is a
`*Ty` pointer, hence a `TyRef` here. -/
structure TyField where
  name : String
  description : String := ""
  type : TyRef
  required : Bool := false
  default : String := ""
deriving DecidableEq, Repr

/-- One `Ty` record (the pointee of a Go `*Ty`).  Defaults are the Go zero
values. -/
structure TyNode where
  name : String := ""
  description : String := ""
  kind : TyKind := .unspecified
  module : String := ""
  primitiveKind : PrimitiveKind := .unknown
  enumValues : List TyEnumValue := []
  fields : List TyField := []
  elementType : Option TyRef := none
  valueType : Option TyRef := none
  isNamed : Bool := false
deriving DecidableEq, Repr

/-- The arena of all allocated `Ty` records. -/
abbrev Heap := List TyNode

/-- `ContentType` from the source. -/
inductive ContentType where
  | json
  | file
deriving DecidableEq, Repr

/-- `HttpHandler` from the source.  `requestBody`/`responseBody` are `*Ty`
pointers (possibly nil), hence `Option TyRef`. -/
structure HttpHandler where
  name : String := ""
  description : String := ""
  path : String := ""
  method : String := ""
  contentType : ContentType := .json
  headerParams : List TyField := []
  pathParams : List TyField := []
  queryParams : List TyField := []
  requestBody : Option TyRef := none
  responseBody : Option TyRef := none
deriving DecidableEq, Repr

/-- `PageInfo` from the source.  `ItemType` is a `*Ty` that the source can
leave nil (array schema without `items`), hence `Option TyRef`. -/
structure PageInfo where
  itemType : Option TyRef
  pageIndexName : String
  pageSizeName : String
deriving DecidableEq, Repr

/-- `DefaultPageIndexCandidates` from the source. -/
def DefaultPageIndexCandidates : List String := ["page_index", "page_num"]

/-- `DefaultPageSizeCandidates` from the source. -/
def DefaultPageSizeCandidates : List String := ["page_size", "page_num"]

/-- The loop body of `GetActualResponseBody`: return the type of the first
field literally named `data`, if any. -/
def findDataField : List TyField → Option TyRef
  | [] => none
  | f :: fs => if f.name = "data" then some f.type else findDataField fs

/-- `(*HttpHandler).GetActualResponseBody` from the source: if
`ResponseBody` is an object with a field named `data`, return that field's
type, otherwise return nil (`none`). -/
def getActualResponseBody (heap : Heap) (h : HttpHandler) : Option TyRef :=
  match h.responseBody with
  | none => none
  | some r =>
    match heap[r]? with
    | none => none -- unreachable in Go: the pointer is always valid
    | some n => if n.kind = .object then findDataField n.fields else none

/-- The loop of `GetPageInfo` over the actual response body's fields:
return (the element type of) the first array-kind field, if any. -/
def findArrayField (heap : Heap) : List TyField → Option (Option TyRef)
  | [] => none
  | f :: fs =>
    match heap[f.type]? with
    | some n => if n.kind = .array then some n.elementType else findArrayField heap fs
    | none => findArrayField heap fs -- unreachable in Go: valid pointer

/-- `(*HttpHandler).GetPageInfo` from the source. -/
def getPageInfo (heap : Heap) (h : HttpHandler)
    (pageIndexCandidates pageSizeCandidates : List String) : Option PageInfo :=
  let idxCands := if pageIndexCandidates.isEmpty then DefaultPageIndexCandidates
    else pageIndexCandidates
  let szCands := if pageSizeCandidates.isEmpty then DefaultPageSizeCandidates
    else pageSizeCandidates
  if h.method ≠ "GET" then none else
  let names := h.queryParams.map (·.name)
  -- Go: `pageIndex`/`pageSize` start as the zero value "" and keep it when
  -- no candidate matches.
  let pageIndex := (idxCands.find? (fun c => names.contains c)).getD ""
  let pageSize :=
    (szCands.find? (fun c => names.contains c && c ≠ pageIndex)).getD ""
  if pageIndex = "" ∨ pageSize = "" then none else
  match getActualResponseBody heap h with
  | none => none
  | some ab =>
    match heap[ab]? with
    | none => none -- unreachable in Go: valid pointer
    | some abn =>
      if abn.kind ≠ .object then none else
      match findArrayField heap abn.fields with
      | none => none
      | some elemTy => some ⟨elemTy, pageIndex, pageSize⟩

/-- `(*Ty).HasOnlyStatusFields` from the source. -/
def hasOnlyStatusFields (heap : Heap) (r : TyRef) : Bool :=
  match heap[r]? with
  | none => false
  | some n =>
    if n.kind ≠ .object then false
    else
      n.fields.all (fun f => f.name = "code" ∨ f.name = "msg" ∨
        f.name = "detail" ∨ f.name = "logid") && !n.fields.isEmpty

lemma findDataField_append_of_no_data (pre rest : List TyField)
    (hpre : ∀ g ∈ pre, g.name ≠ "data") :
    findDataField (pre ++ rest) = findDataField rest := by
  induction pre with
  | nil => rfl
  | cons f fs ih =>
    have hf : f.name ≠ "data" := hpre f (by simp)
    simp only [List.cons_append, findDataField, if_neg hf]
    exact ih (fun g hg => hpre g (by simp [hg]))

lemma findDataField_eq_none_of_no_data (fs : List TyField)
    (h : ∀ g ∈ fs, g.name ≠ "data") : findDataField fs = none := by
  have := findDataField_append_of_no_data fs [] h
  simpa using this

/-- C2 example heap: index 0 is an object response type with the single
field `code`, index 1 is its `int` field type. -/
def c2Heap : Heap :=
  [{ name := "StatusResp", kind := .object, isNamed := true,
     fields := [{ name := "code", type := 1 }] },
   { kind := .primitive, primitiveKind := .int }]

/-- C2 example handler: its declared response body is the object at index 0,
which has no field named `data`. -/
def c2Handler : HttpHandler :=
  { name := "getStatus", method := "GET", responseBody := some 0 }

/-- C2 counterexample: the claim says that for a handler whose declared
response body has no `data` field, the envelope-unwrap operation returns the
declared response body itself (`some 0` here).  On the code it returns nil
(`none`): `GetActualResponseBody` is documented and implemented to return
nil when no `data` field exists. -/
theorem c2_counterexample :
    c2Handler.responseBody = some 0 ∧
    getActualResponseBody c2Heap c2Handler = none ∧
    getActualResponseBody c2Heap c2Handler ≠ c2Handler.responseBody := by
  refine ⟨rfl, by decide, by decide⟩

/-- C2 amended: if the declared response body is an object containing a
field literally named `data`, the envelope-unwrap operation returns that
field's type (the first such field); if the declared response body is an
object with no `data` field, the operation returns nothing (nil), not the
declared response body. -/
theorem c2_amended (heap : Heap) (h : HttpHandler) (r : TyRef) (n : TyNode)
    (hr : h.responseBody = some r) (hn : heap[r]? = some n)
    (hk : n.kind = .object) :
    (∀ pre f post, n.fields = pre ++ f :: post →
      (∀ g ∈ pre, g.name ≠ "data") → f.name = "data" →
      getActualResponseBody heap h = some f.type) ∧
    ((∀ g ∈ n.fields, g.name ≠ "data") →
      getActualResponseBody heap h = none) := by
  constructor
  · intro pre f post hfields hpre hf
    simp only [getActualResponseBody, hr, hn, if_pos hk, hfields]
    rw [findDataField_append_of_no_data pre _ hpre]
    simp [findDataField, hf]
  · intro hall
    simp only [getActualResponseBody, hr, hn, if_pos hk]
    exact findDataField_eq_none_of_no_data _ hall

/-- C2 witness heap: an enveloped response object `{code: int, data: Foo}`. -/
def c2WitnessHeap : Heap :=
  [{ name := "Resp", kind := .object, isNamed := true,
     fields := [{ name := "code", type := 1 }, { name := "data", type := 2 }] },
   { kind := .primitive, primitiveKind := .int },
   { name := "Foo", kind := .object, isNamed := true }]

/-- C2 witness handler. -/
def c2WitnessHandler : HttpHandler :=
  { name := "getFoo", method := "GET", responseBody := some 0 }

/-- Witness for `c2_amended` at a concrete enveloped response. -/
theorem c2_witness :
    getActualResponseBody c2WitnessHeap c2WitnessHandler = some 2 :=
  (c2_amended c2WitnessHeap c2WitnessHandler 0
      { name := "Resp", kind := .object, isNamed := true,
        fields := [{ name := "code", type := 1 }, { name := "data", type := 2 }] }
      rfl rfl rfl).1
    [{ name := "code", type := 1 }] { name := "data", type := 2 } [] rfl
    (by decide) rfl

lemma findArrayField_append_of_no_array (heap : Heap) (pre rest : List TyField)
    (hpre : ∀ g ∈ pre, ∀ gn, heap[g.type]? = some gn → gn.kind ≠ .array) :
    findArrayField heap (pre ++ rest) = findArrayField heap rest := by
  induction pre with
  | nil => rfl
  | cons f fs ih =>
    simp only [List.cons_append, findArrayField]
    have ihr := ih (fun g hg => hpre g (by simp [hg]))
    cases hft : heap[f.type]? with
    | none => exact ihr
    | some fn =>
      have : fn.kind ≠ .array := hpre f (by simp) fn hft
      simp only [if_neg this]
      exact ihr

/-- C9 heap shared by the counterexample and the amended theorem's witness:
`0 = Item` (named object), `1` = anonymous array of `Item`, `2` = the
`data` object `{items: [Item], total: int}`, `3` = int, `4` = the declared
response `{code: int, data: {...}}`, `5` = string (query-parameter type). -/
def c9Heap : Heap :=
  [{ name := "Item", kind := .object, isNamed := true },
   { kind := .array, elementType := some 0 },
   { kind := .object,
     fields := [{ name := "items", type := 1 }, { name := "total", type := 3 }] },
   { kind := .primitive, primitiveKind := .int },
   { kind := .object,
     fields := [{ name := "code", type := 3 }, { name := "data", type := 2 }] },
   { kind := .primitive, primitiveKind := .string }]

/-- C9 counterexample handler: a GET handler whose query parameters include
`page_num` and `page_size` (satisfying the claim's premise) but also
`page_index`. -/
def c9CexHandler : HttpHandler :=
  { name := "listItems", method := "GET",
    queryParams := [{ name := "page_index", type := 3 },
                    { name := "page_num", type := 3 },
                    { name := "page_size", type := 3 }],
    responseBody := some 4 }

/-- C9 counterexample: this handler satisfies the claim's premise (GET,
query parameters include `page_num` and `page_size`, default candidate
lists, response is `{data: {items: [Item], total: int}}`), yet the code
classifies it with index parameter `page_index`, not `page_num` as the
claim states: `page_index` precedes `page_num` in the default index
candidate list. -/
theorem c9_counterexample :
    (c9CexHandler.queryParams.map (·.name)).contains "page_num" = true ∧
    (c9CexHandler.queryParams.map (·.name)).contains "page_size" = true ∧
    getPageInfo c9Heap c9CexHandler [] [] =
      some ⟨some 0, "page_index", "page_size"⟩ ∧
    ∀ pi : PageInfo, getPageInfo c9Heap c9CexHandler [] [] = some pi →
      pi.pageIndexName ≠ "page_num" := by
  refine ⟨by decide, by decide, by decide, ?_⟩
  intro pi hpi
  have : pi = ⟨some 0, "page_index", "page_size"⟩ := by
    have h : getPageInfo c9Heap c9CexHandler [] [] =
        some ⟨some 0, "page_index", "page_size"⟩ := by decide
    rw [h] at hpi
    exact (Option.some_injective _ hpi).symm
  rw [this]
  decide

/-- C9 amended (part one): a GET handler whose query parameters include
`page_num` and `page_size` but not `page_index`, with default candidate
lists, and whose response is an object whose first `data` field holds an
object whose first array-kind field has element type `it`, is classified
paginated with element `it`, index `page_num` and size `page_size`.
Part two: whenever `GetPageInfo` classifies any handler as paginated, the
chosen size parameter name differs from the chosen index parameter name. -/
theorem c9_amended :
    (∀ (heap : Heap) (h : HttpHandler) (r : TyRef) (n : TyNode)
      (dn an : TyNode) (pre post pre2 post2 : List TyField)
      (fd fa : TyField) (it : TyRef),
      h.method = "GET" →
      (h.queryParams.map (·.name)).contains "page_num" = true →
      (h.queryParams.map (·.name)).contains "page_size" = true →
      (h.queryParams.map (·.name)).contains "page_index" = false →
      h.responseBody = some r → heap[r]? = some n → n.kind = .object →
      n.fields = pre ++ fd :: post → (∀ g ∈ pre, g.name ≠ "data") →
      fd.name = "data" →
      heap[fd.type]? = some dn → dn.kind = .object →
      dn.fields = pre2 ++ fa :: post2 →
      (∀ g ∈ pre2, ∀ gn, heap[g.type]? = some gn → gn.kind ≠ .array) →
      heap[fa.type]? = some an → an.kind = .array → an.elementType = some it →
      getPageInfo heap h [] [] = some ⟨some it, "page_num", "page_size"⟩) ∧
    (∀ (heap : Heap) (h : HttpHandler) (ic sc : List String) (pi : PageInfo),
      getPageInfo heap h ic sc = some pi →
      pi.pageSizeName ≠ pi.pageIndexName) := by
  constructor
  · intro heap h r n dn an pre post pre2 post2 fd fa it hm hnum hsize hidx hr
      hn hk hfields hpre hfd hdn hdk harr hpre2 hfa hak hae
    have hget : getActualResponseBody heap h = some fd.type := by
      simp only [getActualResponseBody, hr, hn, if_pos hk, hfields]
      rw [findDataField_append_of_no_data pre _ hpre]
      simp [findDataField, hfd]
    have hidxfind :
        List.find? (fun c => (h.queryParams.map (·.name)).contains c)
          ["page_index", "page_num"] = some "page_num" := by
      rw [List.find?_cons_of_neg _ (by simp only [hidx]; simp),
        List.find?_cons_of_pos _ (by simp only [hnum])]
    have hszfind :
        List.find? (fun c => (h.queryParams.map (·.name)).contains c &&
            decide (c ≠ "page_num")) ["page_size", "page_num"]
          = some "page_size" := by
      rw [List.find?_cons_of_pos _ (by simp only [hsize]; simp)]
    simp only [getPageInfo, hm, List.isEmpty_nil, if_true]
    rw [if_neg (by simp : ¬ ("GET" ≠ "GET"))]
    simp only [DefaultPageIndexCandidates, DefaultPageSizeCandidates,
      hidxfind, Option.getD_some, hszfind]
    rw [if_neg (by simp)]
    simp only [hget, hdn]
    rw [if_neg (by simp [hdk])]
    rw [harr, findArrayField_append_of_no_array heap pre2 _ hpre2]
    simp [findArrayField, hfa, hak, hae]
  · intro heap h ic sc pi hpi
    simp only [getPageInfo] at hpi
    split at hpi
    · exact absurd hpi (by simp)
    · cases hfind : List.find?
          (fun c => (h.queryParams.map (·.name)).contains c &&
            decide (c ≠ (List.find?
              (fun c => (h.queryParams.map (·.name)).contains c)
              (if ic.isEmpty = true then DefaultPageIndexCandidates
                else ic)).getD ""))
          (if sc.isEmpty = true then DefaultPageSizeCandidates else sc) with
      | none =>
        rw [hfind] at hpi
        simp at hpi
      | some s =>
        have hs := List.find?_some hfind
        have hsne : s ≠ (List.find?
            (fun c => (h.queryParams.map (·.name)).contains c)
            (if ic.isEmpty = true then DefaultPageIndexCandidates
              else ic)).getD "" := by
          simp only [Bool.and_eq_true, decide_eq_true_eq] at hs
          exact hs.2
        rw [hfind] at hpi
        simp only [Option.getD_some] at hpi
        generalize hX : (List.find?
            (fun c => (h.queryParams.map (·.name)).contains c)
            (if ic.isEmpty = true then DefaultPageIndexCandidates
              else ic)).getD "" = X at hpi hsne
        split at hpi
        · exact absurd hpi (by simp)
        · split at hpi
          · exact absurd hpi (by simp)
          · split at hpi
            · exact absurd hpi (by simp)
            · split at hpi
              · exact absurd hpi (by simp)
              · split at hpi
                · exact absurd hpi (by simp)
                · injection hpi with hpi2
                  rw [← hpi2]
                  simpa using hsne

/-- C9 witness handler for `c9_amended`: query parameters are exactly
`page_num` and `page_size`. -/
def c9WitnessHandler : HttpHandler :=
  { name := "listItems", method := "GET",
    queryParams := [{ name := "page_num", type := 3 },
                    { name := "page_size", type := 3 }],
    responseBody := some 4 }

/-- Witness for `c9_amended` at a concrete paginated handler. -/
theorem c9_witness :
    getPageInfo c9Heap c9WitnessHandler [] [] =
      some ⟨some 0, "page_num", "page_size"⟩ ∧
    "page_size" ≠ "page_num" := by
  constructor
  · exact c9_amended.1 c9Heap c9WitnessHandler 4
      { kind := .object,
        fields := [{ name := "code", type := 3 }, { name := "data", type := 2 }] }
      { kind := .object,
        fields := [{ name := "items", type := 1 }, { name := "total", type := 3 }] }
      { kind := .array, elementType := some 0 }
      [{ name := "code", type := 3 }] [] [] [{ name := "total", type := 3 }]
      { name := "data", type := 2 } { name := "items", type := 1 } 0
      rfl (by decide) (by decide) (by decide) rfl rfl rfl rfl (by decide) rfl
      rfl rfl rfl (by decide) rfl rfl rfl
  · exact c9_amended.2 c9Heap c9WitnessHandler [] []
      ⟨some 0, "page_num", "page_size"⟩ (by decide)

/-- The mutable parser state the rule engine operates on: the arena of all
allocated `Ty` records plus the named-type registry `namedTypes`
(a Go `map[string]*Ty`; modelled as an association list whose order is one
possible iteration order of the map). -/
structure ParserState where
  heap : Heap
  reg : List (String × TyRef)
deriving DecidableEq, Repr

/-- `p.namedTypes[name]` (Go map lookup). -/
def lookupReg (st : ParserState) (name : String) : Option TyRef :=
  (st.reg.find? (fun p => p.1 = name)).map (·.2)

/-- `delete(p.namedTypes, name)` (Go map delete). -/
def regDelete (reg : List (String × TyRef)) (name : String) :
    List (String × TyRef) :=
  reg.filter (fun p => p.1 ≠ name)

/-- `p.namedTypes[name] = r` (Go map assignment, overwriting). -/
def regInsert (reg : List (String × TyRef)) (name : String) (r : TyRef) :
    List (String × TyRef) :=
  (name, r) :: regDelete reg name

/-- `ty.Name = newName` through the pointer `r`. -/
def heapSetName (heap : Heap) (r : TyRef) (newName : String) : Heap :=
  match heap[r]? with
  | none => heap -- unreachable in Go: registry entries are live pointers
  | some n => heap.set r { n with name := newName }

/-- The second loop of `renameTypes`: perform the renames, in the given
iteration order of `config.RenameTypes`. -/
def applyRenames : List (String × String) → ParserState → ParserState
  | [], st => st
  | (oldName, newName) :: rest, st =>
    match lookupReg st oldName with
    | none => applyRenames rest st
    | some r =>
      applyRenames rest
        ⟨heapSetName st.heap r newName,
          regInsert (regDelete st.reg oldName) newName r⟩

/-- `(*Parser).renameTypes` from the source, with the in-place mutation made
explicit: the returned state is what `p` holds after the call.  The first
loop checks every destination name against the registry before any rename
is applied; on a collision the function returns with the state untouched. -/
def renameTypesRun (batch : List (String × String)) (st : ParserState) :
    Option String × ParserState :=
  if batch.isEmpty then (none, st)
  else
    match batch.find? (fun p => (lookupReg st p.2).isSome) with
    | some p =>
      (some ("cannot rename to " ++ p.2 ++ ": type already exists"), st)
    | none => (none, applyRenames batch st)

/-- C5: if any destination name of the rename batch is already registered,
`renameTypes` fails with an error and the parser state — the named-type
registry and every type's name — is exactly what it was before the call:
zero renames are applied. -/
theorem c5_rename_collision_safety (batch : List (String × String))
    (st : ParserState)
    (hcol : ∃ p ∈ batch, (lookupReg st p.2).isSome) :
    (renameTypesRun batch st).1.isSome ∧ (renameTypesRun batch st).2 = st := by
  obtain ⟨p, hp, hlook⟩ := hcol
  have hne : batch.isEmpty = false := by
    cases batch with
    | nil => exact absurd hp (by simp)
    | cons a l => rfl
  have hfind : (batch.find? (fun p => (lookupReg st p.2).isSome)).isSome := by
    rw [List.find?_isSome]
    exact ⟨p, hp, hlook⟩
  cases hf : batch.find? (fun p => (lookupReg st p.2).isSome) with
  | none => rw [hf] at hfind; simp at hfind
  | some q => simp [renameTypesRun, hne, hf]

/-- C5 witness state: registry holds `A ↦ 0` and `B ↦ 1`. -/
def c5State : ParserState :=
  ⟨[{ name := "A", kind := .object, isNamed := true },
    { name := "B", kind := .object, isNamed := true }],
   [("A", 0), ("B", 1)]⟩

/-- Witness for `c5_rename_collision_safety`: renaming `A` to the existing
name `B` errors and leaves the state untouched. -/
theorem c5_witness :
    (renameTypesRun [("A", "B")] c5State).1.isSome ∧
    (renameTypesRun [("A", "B")] c5State).2 = c5State :=
  c5_rename_collision_safety [("A", "B")] c5State
    ⟨("A", "B"), by simp, by decide⟩

/-- The Go zero value of `Ty`, used to read through a pointer that the
model cannot prove valid (in Go every such pointer is valid). -/
def goZeroTy : TyNode := {}

/-- The body of the inner field loop of `changeFieldRequirements`: apply
one `FieldModification` to one field (requirement switch, then default if
non-empty). -/
def applyFieldMod (mod : FieldModification) (f : TyField) : TyField :=
  let f1 :=
    match mod.requirement with
    | .required => { f with required := true }
    | .optional => { f with required := false }
    | .noChange => f
  if mod.default ≠ "" then { f1 with default := mod.default } else f1

/-- The `for i := range ty.Fields` search: modify the first field with the
given name, or report `none` when no field matches (`found == false`). -/
def modifyFirstField (mod : FieldModification) (fname : String) :
    List TyField → Option (List TyField)
  | [] => none
  | f :: fs =>
    if f.name = fname then some (applyFieldMod mod f :: fs)
    else (modifyFirstField mod fname fs).map (f :: ·)

/-- The inner loop of `changeFieldRequirements` over one type's field
modifications (one possible iteration order of the Go map), mutating the
node at `r` in place. -/
def changeFieldsOfType (tyName : String) (r : TyRef) :
    List (String × Option FieldModification) → Heap → Option String × Heap
  | [], heap => (none, heap)
  | (fname, mod) :: rest, heap =>
    match mod with
    | none => changeFieldsOfType tyName r rest heap
    | some m =>
      match heap[r]? with
      | none => (none, heap) -- unreachable in Go: live pointer
      | some node =>
        match modifyFirstField m fname node.fields with
        | none =>
          (some ("field " ++ fname ++ " not found in type " ++ tyName), heap)
        | some fs2 =>
          changeFieldsOfType tyName r rest (heap.set r { node with fields := fs2 })

/-- `(*Parser).changeFieldRequirements` from the source, with the in-place
mutation made explicit: the returned state is what `p` holds when the
function returns, including on the error path (the Go code mutates
`p.namedTypes`'s nodes as it iterates and returns mid-way on error). -/
def changeFieldRequirements :
    List (String × List (String × Option FieldModification)) → ParserState →
    Option String × ParserState
  | [], st => (none, st)
  | (tyName, mods) :: rest, st =>
    match lookupReg st tyName with
    | none => (some ("type " ++ tyName ++ " not found"), st)
    | some r =>
      if (st.heap[r]?.getD goZeroTy).kind ≠ .object then
        (some ("type " ++ tyName ++ " is not an object type"), st)
      else
        match changeFieldsOfType tyName r mods st.heap with
        | (some e, heap2) => (some e, ⟨heap2, st.reg⟩)
        | (none, heap2) => changeFieldRequirements rest ⟨heap2, st.reg⟩

/-- C6 counterexample state: registry holds one object type `T` with a
single optional field `f`. -/
def c6State : ParserState :=
  ⟨[{ name := "T", kind := .object, isNamed := true,
      fields := [{ name := "f", type := 1, required := false }] },
    { kind := .primitive, primitiveKind := .int }],
   [("T", 0)]⟩

/-- C6 counterexample batch: first make `T.f` required, then touch the
unregistered type `U`.  This is one possible iteration order of the
`config.ChangeFields` map. -/
def c6Batch : List (String × List (String × Option FieldModification)) :=
  [("T", [("f", some { requirement := .required })]), ("U", [])]

/-- C6 counterexample: the rule fails with an error naming the missing
type `U`, as the claim states — but the claim's "on that error no field of
any type has been modified" is false: the modification to `T.f` applied
before the error is reached remains in the returned state, which therefore
differs from the initial one. -/
theorem c6_counterexample :
    (changeFieldRequirements c6Batch c6State).1 = some "type U not found" ∧
    (changeFieldRequirements c6Batch c6State).2 ≠ c6State ∧
    (((changeFieldRequirements c6Batch c6State).2.heap[0]?.getD
        goZeroTy).fields.map (·.required)) = [true] := by
  refine ⟨by decide, by decide, by decide⟩

/-- The shape of a heap that `changeFieldRequirements` can never alter:
every node's kind and field names. -/
def heapShape (heap : Heap) : List (TyKind × List String) :=
  heap.map (fun n => (n.kind, n.fields.map (·.name)))

/-- An entry of the `ChangeFields` configuration that must make the rule
fail: its type name is unregistered, or names a non-object node, or some
non-nil modification names a field absent from the node. -/
def entryBad (st : ParserState)
    (e : String × List (String × Option FieldModification)) : Prop :=
  match lookupReg st e.1 with
  | none => True
  | some r =>
    (st.heap[r]?.getD goZeroTy).kind ≠ .object ∨
      ∃ p ∈ e.2, p.2.isSome ∧
        p.1 ∉ (st.heap[r]?.getD goZeroTy).fields.map (·.name)

lemma applyFieldMod_name (mod : FieldModification) (f : TyField) :
    (applyFieldMod mod f).name = f.name := by
  unfold applyFieldMod
  cases h : mod.requirement <;> simp [h] <;> split <;> rfl

lemma modifyFirstField_names (m : FieldModification) (fn : String) :
    ∀ fs fs2, modifyFirstField m fn fs = some fs2 →
      fs2.map (·.name) = fs.map (·.name) := by
  intro fs
  induction fs with
  | nil => simp [modifyFirstField]
  | cons f fs ih =>
    intro fs2 h
    by_cases hf : f.name = fn
    · simp only [modifyFirstField, if_pos hf, Option.some.injEq] at h
      subst h
      simp [applyFieldMod_name]
    · simp only [modifyFirstField, if_neg hf, Option.map_eq_some'] at h
      obtain ⟨a, ha, rfl⟩ := h
      simp [ih a ha]

lemma modifyFirstField_eq_none_iff (m : FieldModification) (fn : String)
    (fs : List TyField) :
    modifyFirstField m fn fs = none ↔ fn ∉ fs.map (·.name) := by
  induction fs with
  | nil => simp [modifyFirstField]
  | cons f fs ih =>
    by_cases hf : f.name = fn
    · simp [modifyFirstField, hf]
    · simp [modifyFirstField, hf, ih, Ne.symm hf]

lemma lt_length_of_getElem?_some {heap : Heap} {r : TyRef} {node : TyNode}
    (h : heap[r]? = some node) : r < heap.length := by
  rw [List.getElem?_eq_some] at h
  exact h.1

lemma heapShape_set (heap : Heap) (r : TyRef) (node : TyNode)
    (fs2 : List TyField) (h : heap[r]? = some node)
    (hn : fs2.map (·.name) = node.fields.map (·.name)) :
    heapShape (heap.set r { node with fields := fs2 }) = heapShape heap := by
  have hr : r < heap.length := lt_length_of_getElem?_some h
  apply List.ext_getElem?_iff.mpr
  intro i
  simp only [heapShape, List.getElem?_map, List.map_set, List.getElem?_set]
  by_cases hi : r = i
  · subst hi
    rw [if_pos rfl, if_pos (by simpa using hr), h]
    simp [hn]
  · rw [if_neg hi]

lemma shape_node {h1 h2 : Heap} (hsh : heapShape h1 = heapShape h2)
    (r : TyRef) :
    (h1[r]?.getD goZeroTy).kind = (h2[r]?.getD goZeroTy).kind ∧
    (h1[r]?.getD goZeroTy).fields.map (·.name) =
      (h2[r]?.getD goZeroTy).fields.map (·.name) := by
  have hmap : (h1[r]?).map (fun n => (n.kind, n.fields.map (·.name))) =
      (h2[r]?).map (fun n => (n.kind, n.fields.map (·.name))) := by
    have := congrArg (fun l => l[r]?) hsh
    simpa only [heapShape, List.getElem?_map] using this
  cases e1 : h1[r]? with
  | none =>
    cases e2 : h2[r]? with
    | none => simp
    | some n2 => rw [e1, e2] at hmap; exact absurd hmap (by simp)
  | some n1 =>
    cases e2 : h2[r]? with
    | none => rw [e1, e2] at hmap; exact absurd hmap (by simp)
    | some n2 =>
      rw [e1, e2] at hmap
      simp only [Option.map_some', Option.some.injEq, Prod.mk.injEq] at hmap
      simpa using hmap

lemma changeFieldsOfType_shape (t : String) (r : TyRef) :
    ∀ (mods : List (String × Option FieldModification)) (heap : Heap),
      heapShape (changeFieldsOfType t r mods heap).2 = heapShape heap := by
  intro mods
  induction mods with
  | nil => intro heap; rfl
  | cons p rest ih =>
    intro heap
    obtain ⟨fn, mod⟩ := p
    cases mod with
    | none => exact ih heap
    | some m =>
      simp only [changeFieldsOfType]
      cases hnode : heap[r]? with
      | none => rfl
      | some node =>
        dsimp only
        cases hmod : modifyFirstField m fn node.fields with
        | none => rfl
        | some fs2 =>
          dsimp only
          rw [ih (heap.set r { node with fields := fs2 })]
          exact heapShape_set heap r node fs2 hnode
            (modifyFirstField_names m fn node.fields fs2 hmod)

lemma changeFieldsOfType_err (t : String) (r : TyRef) :
    ∀ (mods : List (String × Option FieldModification)) (heap : Heap),
      (heap[r]?).isSome →
      (∃ p ∈ mods, p.2.isSome ∧
        p.1 ∉ (heap[r]?.getD goZeroTy).fields.map (·.name)) →
      (changeFieldsOfType t r mods heap).1.isSome := by
  intro mods
  induction mods with
  | nil => intro heap _ hbad; exact absurd hbad (by simp)
  | cons q rest ih =>
    intro heap hsome hbad
    obtain ⟨fn, mod⟩ := q
    cases mod with
    | none =>
      apply ih heap hsome
      obtain ⟨p, hp, hps, hpn⟩ := hbad
      rcases List.mem_cons.mp hp with rfl | hmem
      · exact absurd hps (by simp)
      · exact ⟨p, hmem, hps, hpn⟩
    | some m =>
      simp only [changeFieldsOfType]
      cases hnode : heap[r]? with
      | none => rw [hnode] at hsome; exact absurd hsome (by simp)
      | some node =>
        dsimp only
        cases hmod : modifyFirstField m fn node.fields with
        | none => simp
        | some fs2 =>
          dsimp only
          apply ih
          · have hr : r < heap.length := lt_length_of_getElem?_some hnode
            simp [List.getElem?_set, hr]
          · obtain ⟨p, hp, hps, hpn⟩ := hbad
            rcases List.mem_cons.mp hp with rfl | hmem
            · exfalso
              rw [hnode] at hpn
              simp only [Option.getD_some] at hpn
              have hnone : modifyFirstField m fn node.fields = none :=
                (modifyFirstField_eq_none_iff m fn node.fields).mpr hpn
              rw [hnone] at hmod
              cases hmod
            · refine ⟨p, hmem, hps, ?_⟩
              have hshape : heapShape (heap.set r { node with fields := fs2 })
                  = heapShape heap :=
                heapShape_set heap r node fs2 hnode
                  (modifyFirstField_names m fn node.fields fs2 hmod)
              rw [(shape_node hshape r).2]
              rw [hnode] at hpn ⊢
              exact hpn

lemma entryBad_of_shape (st st' : ParserState)
    (e : String × List (String × Option FieldModification))
    (hreg : st'.reg = st.reg) (hsh : heapShape st'.heap = heapShape st.heap)
    (h : entryBad st e) : entryBad st' e := by
  have hlook : ∀ n, lookupReg st' n = lookupReg st n := by
    intro n; simp [lookupReg, hreg]
  unfold entryBad at h ⊢
  rw [hlook]
  cases hl : lookupReg st e.1 with
  | none => trivial
  | some r =>
    rw [hl] at h
    rcases h with h | h
    · exact Or.inl (by rw [(shape_node hsh r).1]; exact h)
    · refine Or.inr ?_
      obtain ⟨p, hp, hps, hpn⟩ := h
      exact ⟨p, hp, hps, by rw [(shape_node hsh r).2]; exact hpn⟩

/-- C6 amended: if any entry of the field-override configuration names an
unregistered type, a non-object type, or (with a non-nil modification) a
field absent from its type, the rule fails with an error — but the
modifications applied before the error is reached remain in place (the
rule category is not atomic; see the counterexample). -/
theorem c6_amended
    (batch : List (String × List (String × Option FieldModification)))
    (st : ParserState) (hbad : ∃ e ∈ batch, entryBad st e) :
    (changeFieldRequirements batch st).1.isSome := by
  induction batch generalizing st with
  | nil => exact absurd hbad (by simp)
  | cons hd rest ih =>
    obtain ⟨tyName, mods⟩ := hd
    simp only [changeFieldRequirements]
    cases hlk : lookupReg st tyName with
    | none => simp
    | some r =>
      dsimp only
      by_cases hk : (st.heap[r]?.getD goZeroTy).kind ≠ .object
      · rw [if_pos hk]; simp
      · rw [if_neg hk]
        have hsome : (st.heap[r]?).isSome := by
          cases hval : st.heap[r]? with
          | none =>
            exfalso
            rw [hval] at hk
            exact hk (by simp [goZeroTy])
          | some _ => simp
        cases hres : changeFieldsOfType tyName r mods st.heap with
        | mk err heap2 =>
          cases err with
          | some e => simp
          | none =>
            simp only []
            obtain ⟨e, he, hbe⟩ := hbad
            rcases List.mem_cons.mp he with rfl | hmem
            · exfalso
              unfold entryBad at hbe
              rw [hlk] at hbe
              rcases hbe with hbe | hbe
              · exact hk hbe
              · have := changeFieldsOfType_err tyName r mods st.heap hsome hbe
                rw [hres] at this
                exact absurd this (by simp)
            · apply ih
              refine ⟨e, hmem, ?_⟩
              apply entryBad_of_shape st ⟨heap2, st.reg⟩ e rfl ?_ hbe
              have := changeFieldsOfType_shape tyName r mods st.heap
              rw [hres] at this
              exact this

/-- Witness for `c6_amended`: the counterexample batch contains the
unregistered type name `U`, so the rule errors. -/
theorem c6_witness :
    (changeFieldRequirements c6Batch c6State).1.isSome :=
  c6_amended c6Batch c6State ⟨("U", []), by simp [c6Batch], trivial⟩

/-- A raw OpenAPI schema node (`openapi3.SchemaRef`).  `ref` is a node with
a non-empty `Ref` string; `nilValue` is a node with empty `Ref` and nil
`Value`; `val` carries the fields of `openapi3.Schema` that `convertSchema`
reads: `Type` (slice), `Format`, `Title`, `Description`, `Properties`
(with explicit iteration order; nil pointers as `none`), `Required`,
`Items`, `AdditionalProperties.Schema`, `Enum` (literals rendered opaque,
like `TyEnumValue.val`), and the `x-coze-order` / `x-coze-enum-names`
extensions. -/
inductive OASchema where
  | ref (r : String)
  | nilValue
  | val (type : List String) (format : String) (title : String)
      (description : String) (properties : List (String × Option OASchema))
      (required : List String) (items : Option OASchema)
      (addProps : Option OASchema) (enum : List String)
      (xCozeOrder : Option (List String)) (enumNames : Option (List String))

/-- The parts of the OpenAPI document `convertSchema` reads:
`doc.Components.Schemas` (one possible iteration order of the map). -/
structure OADoc where
  components : List (String × OASchema)

/-- Errors of the conversion: a wrapped Go `error` message, or fuel
exhaustion (the marker that the Go recursion has not returned at this
depth; `∀ fuel, ... = .error .fuel` means it never returns). -/
inductive ConvErr where
  | fuel
  | msg (s : String)
deriving DecidableEq, Repr

/-- Wrap an error message the way `fmt.Errorf("...: %w", err)` does; fuel
exhaustion is a modelling artefact and passes through unchanged. -/
def wrapErr (pre : String) : ConvErr → ConvErr
  | .fuel => .fuel
  | .msg s => .msg (pre ++ s)

/-- `util.Choose` from the source. -/
def choose (cond : Bool) (a b : String) : String := if cond then a else b

/-- `getRefName` from the source: `strings.Split(ref, "/")` followed by
taking the last element, i.e. the suffix after the last `/` (implemented
directly on the character list so that it computes by reduction). -/
def getRefName (ref : String) : String :=
  String.mk ((ref.toList.reverse.takeWhile (fun c => c ≠ '/')).reverse)

/-- `p.doc.Components.Schemas[name]` (Go map lookup; missing key is a nil
pointer, which the caller turns into the nil-schema error). -/
def lookupComponents (doc : OADoc) (name : String) : Option OASchema :=
  ((doc.components.find? (fun p => p.1 = name)).map (·.2))

/-- `schema.Value.Properties[propName]`: a missing key or a stored nil
pointer both yield nil. -/
def lookupProp (props : List (String × Option OASchema)) (pname : String) :
    Option OASchema :=
  (props.find? (fun p => p.1 = pname)).bind (·.2)

/-- `(*Parser).convertPrimitiveType` from the source. -/
def convertPrimitiveType (typ : List String) (format : String) :
    PrimitiveKind :=
  match typ with
  | [] => .unknown
  | t :: _ =>
    match t with
    | "integer" => .int
    | "number" => .float
    | "string" => if format = "binary" then .binary else .string
    | "boolean" => .bool
    | _ => .unknown

/-- The enum block of `convertSchema`'s primitive case: attach enum
literals, zipping in display names only when the counts match. -/
def buildEnumValues (enum : List String)
    (enumNames : Option (List String)) : List TyEnumValue :=
  let evs := enum.map (fun v => { name := "", val := v : TyEnumValue })
  match enumNames with
  | some names =>
    if names.length = enum.length then
      (names.zip enum).map (fun p => { name := p.1, val := p.2 })
    else evs
  | none => evs

/-- `ty := &Ty{...}` followed by `return ty, nil` without registration (the
map branch of `convertSchema` returns before the registration block):
allocate the node and return its pointer. -/
def allocTy (node : TyNode) (st : ParserState) : TyRef × ParserState :=
  (st.heap.length, { heap := st.heap ++ [node], reg := st.reg })

/-- The tail of `convertSchema`: register the node under its name when
`isNamed`, otherwise clear its description; then return the pointer.  (In
Go the record is allocated before its children are converted and the
registration happens after; allocation order of arena indices is the only
difference, and nothing reads it.) -/
def finishTy (name : String) (isNamed : Bool) (node : TyNode)
    (st : ParserState) : TyRef × ParserState :=
  let node2 := if isNamed then node else { node with description := "" }
  let r := st.heap.length
  (r, { heap := st.heap ++ [node2],
        reg := if isNamed then regInsert st.reg name r else st.reg })

/-- `schema.Value.Title` / `.Description` as read by `convertField`: for a
reference node the loader resolves `Value` to the target schema's value
(components entries are value nodes, so one lookup suffices). -/
def schemaTitleDescr (doc : OADoc) : Option OASchema → String × String
  | some (.val _ _ title descr _ _ _ _ _ _ _) => (title, descr)
  | some (.ref r) =>
    match lookupComponents doc (getRefName r) with
    | some (.val _ _ title descr _ _ _ _ _ _ _) => (title, descr)
    | _ => ("", "")
  | _ => ("", "")

mutual

/-- `(*Parser).convertSchema` from the source, with fuel.  Every call
(including the helper loops) consumes one unit of fuel; a Go run
corresponds to an arbitrarily large fuel value. -/
def convertSchema (doc : OADoc) : Nat → Option OASchema → String → Bool →
    ParserState → Except ConvErr (TyRef × ParserState)
  | 0, _, _, _, _ => .error .fuel
  | _ + 1, none, _, _, _ => .error (.msg "nil schema")
  | _ + 1, some .nilValue, _, _, _ => .error (.msg "nil schema value")
  | fuel + 1, some (.ref rstr), _, _, st =>
    -- If it is a reference and already processed, return the existing type.
    let refName := getRefName rstr
    (match lookupReg st refName with
     | some existing => .ok (existing, st)
     | none =>
       convertSchema doc fuel (lookupComponents doc refName) refName true st)
  | fuel + 1,
    some (.val ty fmt title descr props reqd items addProps enum xOrder
      enumNames), name, isNamed, st =>
    let descr0 := choose (title ≠ "") title descr
    match addProps with
    | some vs =>
      -- Map type first; returns before the registration block.
      (match convertSchema doc fuel (some vs) "" false st with
       | .error e => .error (wrapErr "failed to convert map value type: " e)
       | .ok (vref, st1) =>
         .ok (allocTy { name := name, isNamed := isNamed,
                        description := descr0, kind := .map,
                        valueType := some vref } st1))
    | none =>
      match ty with
      | [] =>
        -- `schema.Value.Type` nil or empty: the kind stays the zero value.
        .ok (finishTy name isNamed
          { name := name, isNamed := isNamed, description := descr0 } st)
      | t :: tyRest =>
        if t = "array" then
          match items with
          | none =>
            .ok (finishTy name isNamed
              { name := name, isNamed := isNamed, description := descr0,
                kind := .array } st)
          | some iS =>
            match convertSchema doc fuel (some iS) "" false st with
            | .error e =>
              .error (wrapErr "failed to convert array element type: " e)
            | .ok (eref, st1) =>
              .ok (finishTy name isNamed
                { name := name, isNamed := isNamed, description := descr0,
                  kind := .array, elementType := some eref } st1)
        else if t = "object" then
          match xOrder with
          | some order =>
            (match convertFieldsOrdered doc fuel order props reqd st with
             | .error e => .error e
             | .ok (flds, st1) =>
               .ok (finishTy name isNamed
                 { name := name, isNamed := isNamed, description := descr0,
                   kind := .object, fields := flds } st1))
          | none =>
            (match convertFields doc fuel props reqd st with
             | .error e => .error e
             | .ok (flds, st1) =>
               .ok (finishTy name isNamed
                 { name := name, isNamed := isNamed, description := descr0,
                   kind := .object, fields := flds } st1))
        else
          .ok (finishTy name isNamed
            { name := name, isNamed := isNamed, description := descr0,
              kind := .primitive,
              primitiveKind := convertPrimitiveType (t :: tyRest) fmt,
              enumValues := buildEnumValues enum enumNames } st)

/-- `(*Parser).convertField` from the source, with fuel. -/
def convertField (doc : OADoc) : Nat → String → Option OASchema →
    List String → ParserState → Except ConvErr (TyField × ParserState)
  | 0, _, _, _, _ => .error .fuel
  | fuel + 1, name, schema, reqd, st =>
    match convertSchema doc fuel schema "" false st with
    | .error e => .error e
    | .ok (r, st1) =>
      let td := schemaTitleDescr doc schema
      .ok ({ name := name, description := choose (td.1 ≠ "") td.1 td.2,
             type := r, required := reqd.contains name }, st1)

/-- The `else` branch of the object case of `convertSchema`: process the
properties in map iteration order (the given list order). -/
def convertFields (doc : OADoc) : Nat → List (String × Option OASchema) →
    List String → ParserState →
    Except ConvErr (List TyField × ParserState)
  | 0, _, _, _ => .error .fuel
  | _ + 1, [], _, st => .ok ([], st)
  | fuel + 1, (pn, ps) :: rest, reqd, st =>
    match convertField doc fuel pn ps reqd st with
    | .error e =>
      .error (wrapErr ("failed to convert field " ++ pn ++ ": ") e)
    | .ok (fld, st1) =>
      match convertFields doc fuel rest reqd st1 with
      | .error e => .error e
      | .ok (flds, st2) => .ok (fld :: flds, st2)

/-- The `x-coze-order` branch of the object case of `convertSchema`:
process the properties in the declared order, skipping names with no (or a
nil) property. -/
def convertFieldsOrdered (doc : OADoc) : Nat → List String →
    List (String × Option OASchema) → List String → ParserState →
    Except ConvErr (List TyField × ParserState)
  | 0, _, _, _, _ => .error .fuel
  | _ + 1, [], _, _, st => .ok ([], st)
  | fuel + 1, pname :: restNames, props, reqd, st =>
    match lookupProp props pname with
    | none => convertFieldsOrdered doc fuel restNames props reqd st
    | some prop =>
      match convertField doc fuel pname (some prop) reqd st with
      | .error e =>
        .error (wrapErr ("failed to convert field " ++ pname ++ ": ") e)
      | .ok (fld, st1) =>
        match convertFieldsOrdered doc fuel restNames props reqd st1 with
        | .error e => .error e
        | .ok (flds, st2) => .ok (fld :: flds, st2)

end

/-- `(*Parser).processNamedTypes` from the source: convert every components
schema not yet registered, in map iteration order. -/
def processNamedTypes (doc : OADoc) (fuel : Nat) :
    List (String × OASchema) → ParserState → Except ConvErr ParserState
  | [], st => .ok st
  | (name, schema) :: rest, st =>
    if (lookupReg st name).isSome then processNamedTypes doc fuel rest st
    else
      match convertSchema doc fuel (some schema) name true st with
      | .error e =>
        .error (wrapErr ("failed to convert schema " ++ name ++ ": ") e)
      | .ok (r, st1) =>
        processNamedTypes doc fuel rest
          { st1 with reg := regInsert st1.reg name r }

/-- An `integer` schema node. -/
def c1IntSchema : OASchema := .val ["integer"] "" "" "" [] [] none none [] none none

/-- An `object` schema node with the given properties and no
`x-coze-order` extension. -/
def c1ObjSchema (props : List (String × Option OASchema)) : OASchema :=
  .val ["object"] "" "" "" props [] none none [] none none

/-- Field names of the type produced by converting `s` against an empty
document and registry. -/
def convFieldNames (fuel : Nat) (s : OASchema) : Option (List String) :=
  match convertSchema ⟨[]⟩ fuel (some s) "Obj" true ⟨[], []⟩ with
  | .ok (r, st) => (st.heap[r]?).map (fun n => n.fields.map (·.name))
  | .error _ => none

/-- C1: the same object schema (no `x-coze-order`), whose `Properties` map
is iterated in two different orders — both legal iteration orders of the
same Go map, as witnessed by the permutation — converts to two different
field orders.  Go randomizes map iteration per process, so two runs of the
build on byte-identical input can produce the two different outputs: the
claimed run-to-run determinism fails. -/
theorem c1_field_order_depends_on_map_iteration :
    [("b", some c1IntSchema), ("a", some c1IntSchema)].Perm
      [("a", some c1IntSchema), ("b", some c1IntSchema)] ∧
    convFieldNames 10
      (c1ObjSchema [("a", some c1IntSchema), ("b", some c1IntSchema)]) =
      some ["a", "b"] ∧
    convFieldNames 10
      (c1ObjSchema [("b", some c1IntSchema), ("a", some c1IntSchema)]) =
      some ["b", "a"] ∧
    (some ["a", "b"] : Option (List String)) ≠ some ["b", "a"] :=
  ⟨List.Perm.swap _ _ _, by decide, by decide, by decide⟩

/-- C4 document: a named object schema `A` whose field `self` is a
reference back to `A`. -/
def c4SchemaA : OASchema :=
  .val ["object"] "" "" ""
    [("self", some (.ref "#/components/schemas/A"))] [] none none [] none none

/-- The one-schema document for C4. -/
def c4Doc : OADoc := ⟨[("A", c4SchemaA)]⟩

/-- Converting the self-referential schema `A` never returns, whatever the
recursion depth: registration of `A` happens only after its fields are
converted, so the registry check on the self-reference always misses and
the recursion re-enters `convertSchema` for `A` with an unchanged
registry. -/
theorem conv_selfref_diverges (fuel : Nat) : ∀ (st : ParserState),
    lookupReg st "A" = none →
    convertSchema c4Doc fuel (some c4SchemaA) "A" true st = .error .fuel := by
  induction fuel using Nat.strong_induction_on with
  | _ fuel ih =>
    match fuel, ih with
    | 0, _ => intro st h; rfl
    | 1, _ => intro st h; rfl
    | 2, _ => intro st h; rfl
    | 3, _ => intro st h; rfl
    | (k+4), ih =>
      intro st h
      have ihk : convertSchema c4Doc k (some c4SchemaA) "A" true st
          = .error .fuel := ih k (by omega) st h
      have e4 : convertSchema c4Doc (k+1)
          (some (.ref "#/components/schemas/A")) "" false st
          = .error .fuel := by
        have u : convertSchema c4Doc (k+1)
            (some (.ref "#/components/schemas/A")) "" false st
            = match lookupReg st "A" with
              | some existing => .ok (existing, st)
              | none =>
                convertSchema c4Doc k (lookupComponents c4Doc "A") "A" true
                  st := rfl
        rw [u, h]
        exact ihk
      have e3 : convertField c4Doc (k+2) "self"
          (some (.ref "#/components/schemas/A")) [] st = .error .fuel := by
        have u : convertField c4Doc (k+2) "self"
            (some (.ref "#/components/schemas/A")) [] st
            = match convertSchema c4Doc (k+1)
                (some (.ref "#/components/schemas/A")) "" false st with
              | .error e => .error e
              | .ok (r, st1) =>
                .ok ({ name := "self", description := "", type := r,
                       required := false }, st1) := rfl
        rw [u, e4]
      have e2 : convertFields c4Doc (k+3)
          [("self", some (.ref "#/components/schemas/A"))] [] st
          = .error .fuel := by
        have u : convertFields c4Doc (k+3)
            [("self", some (.ref "#/components/schemas/A"))] [] st
            = match convertField c4Doc (k+2) "self"
                (some (.ref "#/components/schemas/A")) [] st with
              | .error e =>
                .error (wrapErr "failed to convert field self: " e)
              | .ok (fld, st1) =>
                match convertFields c4Doc (k+2) [] [] st1 with
                | .error e => .error e
                | .ok (flds, st2) => .ok (fld :: flds, st2) := rfl
        rw [u, e3]
        rfl
      have u : convertSchema c4Doc (k+4) (some c4SchemaA) "A" true st
          = match convertFields c4Doc (k+3)
              [("self", some (.ref "#/components/schemas/A"))] [] st with
            | .error e => .error e
            | .ok (flds, st1) =>
              .ok (finishTy "A" true
                { name := "A", isNamed := true, kind := .object,
                  fields := flds } st1) := rfl
      rw [u, e2]

/-- C4: for every recursion depth, building the named types of the
self-referential document runs out of depth: the Go recursion never
terminates (it overruns the stack), instead of terminating with a
registered type as the claim states. -/
theorem c4_selfref_build_never_terminates :
    ∀ fuel, processNamedTypes c4Doc fuel c4Doc.components ⟨[], []⟩
      = .error .fuel := by
  intro fuel
  have h := conv_selfref_diverges fuel ⟨[], []⟩ rfl
  have u : processNamedTypes c4Doc fuel c4Doc.components ⟨[], []⟩
      = match convertSchema c4Doc fuel (some c4SchemaA) "A" true ⟨[], []⟩ with
        | .error e => .error (wrapErr "failed to convert schema A: " e)
        | .ok (r, st1) =>
          processNamedTypes c4Doc fuel []
            { st1 with reg := regInsert st1.reg "A" r } := rfl
  rw [u, h]
  rfl

/-- C8 document: named object schemas `A` and `B`, each with a direct field
of the other's type. -/
def c8SchemaA : OASchema :=
  .val ["object"] "" "" ""
    [("b", some (.ref "#/components/schemas/B"))] [] none none [] none none

/-- See `c8SchemaA`. -/
def c8SchemaB : OASchema :=
  .val ["object"] "" "" ""
    [("a", some (.ref "#/components/schemas/A"))] [] none none [] none none

/-- The two-schema document for C8. -/
def c8Doc : OADoc := ⟨[("A", c8SchemaA), ("B", c8SchemaB)]⟩

/-- Converting either of the mutually-referential schemas never returns:
neither is registered until its fields are converted, which requires the
other, so the registry misses forever. -/
theorem conv_mutual_cycle_diverges (fuel : Nat) : ∀ (st : ParserState),
    lookupReg st "A" = none → lookupReg st "B" = none →
    convertSchema c8Doc fuel (some c8SchemaA) "A" true st = .error .fuel ∧
    convertSchema c8Doc fuel (some c8SchemaB) "B" true st = .error .fuel := by
  induction fuel using Nat.strong_induction_on with
  | _ fuel ih =>
    match fuel, ih with
    | 0, _ => intro st hA hB; exact ⟨rfl, rfl⟩
    | 1, _ => intro st hA hB; exact ⟨rfl, rfl⟩
    | 2, _ => intro st hA hB; exact ⟨rfl, rfl⟩
    | 3, _ => intro st hA hB; exact ⟨rfl, rfl⟩
    | (k+4), ih =>
      intro st hA hB
      have ihk := ih k (by omega) st hA hB
      constructor
      · have e4 : convertSchema c8Doc (k+1)
            (some (.ref "#/components/schemas/B")) "" false st
            = .error .fuel := by
          have u : convertSchema c8Doc (k+1)
              (some (.ref "#/components/schemas/B")) "" false st
              = match lookupReg st "B" with
                | some existing => .ok (existing, st)
                | none =>
                  convertSchema c8Doc k (lookupComponents c8Doc "B") "B" true
                    st := rfl
          rw [u, hB]
          exact ihk.2
        have e3 : convertField c8Doc (k+2) "b"
            (some (.ref "#/components/schemas/B")) [] st = .error .fuel := by
          have u : convertField c8Doc (k+2) "b"
              (some (.ref "#/components/schemas/B")) [] st
              = match convertSchema c8Doc (k+1)
                  (some (.ref "#/components/schemas/B")) "" false st with
                | .error e => .error e
                | .ok (r, st1) =>
                  .ok ({ name := "b", description := "", type := r,
                         required := false }, st1) := rfl
          rw [u, e4]
        have e2 : convertFields c8Doc (k+3)
            [("b", some (.ref "#/components/schemas/B"))] [] st
            = .error .fuel := by
          have u : convertFields c8Doc (k+3)
              [("b", some (.ref "#/components/schemas/B"))] [] st
              = match convertField c8Doc (k+2) "b"
                  (some (.ref "#/components/schemas/B")) [] st with
                | .error e =>
                  .error (wrapErr "failed to convert field b: " e)
                | .ok (fld, st1) =>
                  match convertFields c8Doc (k+2) [] [] st1 with
                  | .error e => .error e
                  | .ok (flds, st2) => .ok (fld :: flds, st2) := rfl
          rw [u, e3]
          rfl
        have u : convertSchema c8Doc (k+4) (some c8SchemaA) "A" true st
            = match convertFields c8Doc (k+3)
                [("b", some (.ref "#/components/schemas/B"))] [] st with
              | .error e => .error e
              | .ok (flds, st1) =>
                .ok (finishTy "A" true
                  { name := "A", isNamed := true, kind := .object,
                    fields := flds } st1) := rfl
        rw [u, e2]
      · have e4 : convertSchema c8Doc (k+1)
            (some (.ref "#/components/schemas/A")) "" false st
            = .error .fuel := by
          have u : convertSchema c8Doc (k+1)
              (some (.ref "#/components/schemas/A")) "" false st
              = match lookupReg st "A" with
                | some existing => .ok (existing, st)
                | none =>
                  convertSchema c8Doc k (lookupComponents c8Doc "A") "A" true
                    st := rfl
          rw [u, hA]
          exact ihk.1
        have e3 : convertField c8Doc (k+2) "a"
            (some (.ref "#/components/schemas/A")) [] st = .error .fuel := by
          have u : convertField c8Doc (k+2) "a"
              (some (.ref "#/components/schemas/A")) [] st
              = match convertSchema c8Doc (k+1)
                  (some (.ref "#/components/schemas/A")) "" false st with
                | .error e => .error e
                | .ok (r, st1) =>
                  .ok ({ name := "a", description := "", type := r,
                         required := false }, st1) := rfl
          rw [u, e4]
        have e2 : convertFields c8Doc (k+3)
            [("a", some (.ref "#/components/schemas/A"))] [] st
            = .error .fuel := by
          have u : convertFields c8Doc (k+3)
              [("a", some (.ref "#/components/schemas/A"))] [] st
              = match convertField c8Doc (k+2) "a"
                  (some (.ref "#/components/schemas/A")) [] st with
                | .error e =>
                  .error (wrapErr "failed to convert field a: " e)
                | .ok (fld, st1) =>
                  match convertFields c8Doc (k+2) [] [] st1 with
                  | .error e => .error e
                  | .ok (flds, st2) => .ok (fld :: flds, st2) := rfl
          rw [u, e3]
          rfl
        have u : convertSchema c8Doc (k+4) (some c8SchemaB) "B" true st
            = match convertFields c8Doc (k+3)
                [("a", some (.ref "#/components/schemas/A"))] [] st with
              | .error e => .error e
              | .ok (flds, st1) =>
                .ok (finishTy "B" true
                  { name := "B", isNamed := true, kind := .object,
                    fields := flds } st1) := rfl
        rw [u, e2]

/-- C8: for every recursion depth, building the named types of the
mutually-referential document runs out of depth: the Go build never reaches
the topological sort's cycle error — it hangs (overruns the stack) inside
`convertSchema` instead of terminating with a fatal error as the claim
states. -/
theorem c8_mutual_cycle_build_never_terminates :
    ∀ fuel, processNamedTypes c8Doc fuel c8Doc.components ⟨[], []⟩
      = .error .fuel := by
  intro fuel
  have h := (conv_mutual_cycle_diverges fuel ⟨[], []⟩ rfl rfl).1
  have u : processNamedTypes c8Doc fuel c8Doc.components ⟨[], []⟩
      = match convertSchema c8Doc fuel (some c8SchemaA) "A" true ⟨[], []⟩ with
        | .error e => .error (wrapErr "failed to convert schema A: " e)
        | .ok (r, st1) =>
          processNamedTypes c8Doc fuel [("B", c8SchemaB)]
            { st1 with reg := regInsert st1.reg "A" r } := rfl
  rw [u, h]
  rfl

/-- `openapi3.Parameter` as read by `convertOperation` (`Name`, `In`,
`Description`, `Required`, `Schema`).  A nil `param.Value` is modelled by
`none` at the use site. -/
structure OAParameter where
  name : String := ""
  inLoc : String := ""
  description : String := ""
  required : Bool := false
  schema : Option OASchema := none

/-- `op.RequestBody.Value`: the content map (media type to its schema; nil
schema pointers as `none`), in one possible iteration order. -/
structure OARequestBody where
  content : List (String × Option OASchema)

/-- The parts of `openapi3.Operation` that `convertOperation` reads. -/
structure OAOperation where
  operationID : String := ""
  description : String := ""
  tags : List String := []
  parameters : List (Option OAParameter) := []
  requestBody : Option OARequestBody := none
  responses : List (String × List (String × Option OASchema)) := []

/-- The parameter loop of `convertOperation`: convert each parameter's
schema and append it to the list matching its location; unsupported
locations are silently dropped (the Go switch has no default). -/
def convertParams (doc : OADoc) (fuel : Nat) :
    List (Option OAParameter) → HttpHandler → ParserState →
    Except ConvErr (HttpHandler × ParserState)
  | [], h, st => .ok (h, st)
  | none :: rest, h, st => convertParams doc fuel rest h st
  | some param :: rest, h, st =>
    match convertSchema doc fuel param.schema "" false st with
    | .error e => .error (wrapErr "failed to convert parameter schema: " e)
    | .ok (r, st1) =>
      let parameter : TyField :=
        { name := param.name, description := param.description,
          required := param.required, type := r }
      let h2 :=
        if param.inLoc = "header" then
          { h with headerParams := h.headerParams ++ [parameter] }
        else if param.inLoc = "path" then
          { h with pathParams := h.pathParams ++ [parameter] }
        else if param.inLoc = "query" then
          { h with queryParams := h.queryParams ++ [parameter] }
        else h
      convertParams doc fuel rest h2 st1

/-- The request-body / response loops of `convertOperation`: scan the
content map in iteration order and take the first entry with a non-nil
schema (`if content.Schema != nil { ...; break }`). -/
def findContentSchema : List (String × Option OASchema) →
    Option (String × OASchema)
  | [] => none
  | (ct, some sch) :: _ => some (ct, sch)
  | (_, none) :: rest => findContentSchema rest

/-- `op.Responses.Map()["200"]`. -/
def lookupResponse (responses : List (String × List (String × Option OASchema)))
    (status : String) : Option (List (String × Option OASchema)) :=
  (responses.find? (fun p => p.1 = status)).map (·.2)

/-- The response-body section of `convertOperation`: take the `200`
response's first content entry with a schema and convert it. -/
def convertOpResponse (doc : OADoc) (fuel : Nat) (op : OAOperation)
    (h : HttpHandler) (st : ParserState) :
    Except ConvErr (HttpHandler × ParserState) :=
  match lookupResponse op.responses "200" with
  | none => .ok (h, st)
  | some content =>
    match findContentSchema content with
    | none => .ok (h, st)
    | some (_, sch) =>
      match convertSchema doc fuel (some sch) "" false st with
      | .error e => .error (wrapErr "failed to convert response schema: " e)
      | .ok (r, st1) => .ok ({ h with responseBody := some r }, st1)

/-- `(*Parser).convertOperation` from the source, with fuel.  The handler
starts with `ContentType: ContentTypeJson` ("Default to JSON"); the
request-body switch sets it to file for `multipart/form-data`, (re)sets
JSON for `application/json`, and leaves it unchanged — with no error — for
any other media type (the Go switch has no default case). -/
def convertOperation (doc : OADoc) (fuel : Nat) (path method : String)
    (op : OAOperation) (st : ParserState) :
    Except ConvErr (HttpHandler × ParserState) :=
  let handler : HttpHandler :=
    { name := op.operationID, description := op.description, path := path,
      method := method, contentType := .json }
  match convertParams doc fuel op.parameters handler st with
  | .error e => .error e
  | .ok (h1, st1) =>
    match op.requestBody with
    | none => convertOpResponse doc fuel op h1 st1
    | some rb =>
      match findContentSchema rb.content with
      | none => convertOpResponse doc fuel op h1 st1
      | some (ct, sch) =>
        match convertSchema doc fuel (some sch) "" false st1 with
        | .error e =>
          .error (wrapErr "failed to convert request body schema: " e)
        | .ok (r, st2) =>
          let h2 := { h1 with requestBody := some r }
          let h3 :=
            if ct = "multipart/form-data" then { h2 with contentType := .file }
            else if ct = "application/json" then { h2 with contentType := .json }
            else h2
          convertOpResponse doc fuel op h3 st2

/-- C3 counterexample operation: a body whose only media type is
`text/plain`. -/
def c3Op : OAOperation :=
  { operationID := "op",
    requestBody := some ⟨[("text/plain", some c1IntSchema)]⟩ }

/-- C3 counterexample: converting an operation whose request body has the
media type `text/plain` — neither `multipart/form-data` nor
`application/json` — succeeds and produces a handler (classified
structured/JSON by default), instead of returning a fatal error as the
claim states. -/
theorem c3_counterexample :
    convertOperation ⟨[]⟩ 10 "/p" "POST" c3Op ⟨[], []⟩ =
      .ok ({ name := "op", path := "/p", method := "POST",
             contentType := .json, requestBody := some 0 },
           ⟨[{ kind := .primitive, primitiveKind := .int }], []⟩) ∧
    (convertOperation ⟨[]⟩ 10 "/p" "POST" c3Op ⟨[], []⟩).isOk = true := by
  refine ⟨rfl, rfl⟩

lemma convertParams_contentType (doc : OADoc) (fuel : Nat) :
    ∀ (ps : List (Option OAParameter)) (h h2 : HttpHandler)
      (st st2 : ParserState),
      convertParams doc fuel ps h st = .ok (h2, st2) →
      h2.contentType = h.contentType := by
  intro ps
  induction ps with
  | nil =>
    intro h h2 st st2 hok
    simp only [convertParams, Except.ok.injEq, Prod.mk.injEq] at hok
    rw [← hok.1]
  | cons p rest ih =>
    intro h h2 st st2 hok
    cases p with
    | none => exact ih h h2 st st2 hok
    | some param =>
      simp only [convertParams] at hok
      cases hcv : convertSchema doc fuel param.schema "" false st with
      | error e => rw [hcv] at hok; cases hok
      | ok rst =>
        obtain ⟨r, st1⟩ := rst
        rw [hcv] at hok
        dsimp only at hok
        have := ih _ h2 st1 st2 hok
        rw [this]
        split <;> try rfl
        split <;> try rfl
        split <;> rfl

lemma convertOpResponse_contentType (doc : OADoc) (fuel : Nat)
    (op : OAOperation) (h h2 : HttpHandler) (st st2 : ParserState)
    (hok : convertOpResponse doc fuel op h st = .ok (h2, st2)) :
    h2.contentType = h.contentType := by
  simp only [convertOpResponse] at hok
  split at hok
  · simp only [Except.ok.injEq, Prod.mk.injEq] at hok
    rw [← hok.1]
  · split at hok
    · simp only [Except.ok.injEq, Prod.mk.injEq] at hok
      rw [← hok.1]
    · split at hok
      · cases hok
      · simp only [Except.ok.injEq, Prod.mk.injEq] at hok
        rw [← hok.1]

/-- C3 amended: the operation converter classifies a request body whose
first schema-bearing content entry has media type `multipart/form-data` as
file-upload and anything else — `application/json`, an unknown media type,
or an absent one — as structured (the initialized JSON default); no error
is ever raised on account of the media type. -/
theorem c3_amended (doc : OADoc) (fuel : Nat) (path method : String)
    (op : OAOperation) (st : ParserState) (h : HttpHandler)
    (st2 : ParserState) (rb : OARequestBody) (ct : String) (sch : OASchema)
    (hok : convertOperation doc fuel path method op st = .ok (h, st2))
    (hrb : op.requestBody = some rb)
    (hfind : findContentSchema rb.content = some (ct, sch)) :
    h.contentType = (if ct = "multipart/form-data" then .file else .json) := by
  simp only [convertOperation] at hok
  cases hps : convertParams doc fuel op.parameters
      { name := op.operationID, description := op.description, path := path,
        method := method, contentType := .json } st with
  | error e => rw [hps] at hok; cases hok
  | ok h1st1 =>
    obtain ⟨h1, st1⟩ := h1st1
    have hct1 : h1.contentType = .json := convertParams_contentType _ _ _ _ _ _ _ hps
    rw [hps] at hok
    dsimp only at hok
    rw [hrb] at hok
    dsimp only at hok
    rw [hfind] at hok
    dsimp only at hok
    cases hcv : convertSchema doc fuel (some sch) "" false st1 with
    | error e => rw [hcv] at hok; cases hok
    | ok rst2 =>
      obtain ⟨r, st3⟩ := rst2
      rw [hcv] at hok
      dsimp only at hok
      by_cases hmp : ct = "multipart/form-data"
      · rw [if_pos hmp]
        rw [if_pos hmp] at hok
        exact convertOpResponse_contentType doc fuel op _ h _ st2 hok
      · rw [if_neg hmp]
        rw [if_neg hmp] at hok
        by_cases hj : ct = "application/json"
        · rw [if_pos hj] at hok
          exact convertOpResponse_contentType doc fuel op _ h _ st2 hok
        · rw [if_neg hj] at hok
          have := convertOpResponse_contentType doc fuel op _ h _ st2 hok
          rw [this]
          exact hct1

/-- C3 witness operation: a `multipart/form-data` body. -/
def c3FileOp : OAOperation :=
  { operationID := "upload",
    requestBody := some ⟨[("multipart/form-data", some c1IntSchema)]⟩ }

/-- Witness for `c3_amended` at the multipart operation. -/
theorem c3_witness :
    ({ name := "upload", path := "/p", method := "POST",
       contentType := .file, requestBody := some 0 } : HttpHandler).contentType
      = (if "multipart/form-data" = "multipart/form-data" then
          ContentType.file else ContentType.json) :=
  c3_amended ⟨[]⟩ 10 "/p" "POST" c3FileOp ⟨[], []⟩
    { name := "upload", path := "/p", method := "POST",
      contentType := .file, requestBody := some 0 }
    ⟨[{ kind := .primitive, primitiveKind := .int }], []⟩
    ⟨[("multipart/form-data", some c1IntSchema)]⟩ "multipart/form-data"
    c1IntSchema rfl rfl rfl

/-- The dependency edges `addTypeToGraph` draws into the node at `r` (from
dependency to dependent): for an object, every field's type plus that
type's element type when set (the source reads `field.Type.ElementType`
regardless of the field type's kind); for an array, the element type; map
value types are not walked.  Out-of-range indices are dropped to keep the
collector total — in Go every stored pointer is a valid node, so the
filter never removes anything on states that arise from the program. -/
def nodeDeps (heap : Heap) (r : TyRef) : List TyRef :=
  match heap[r]? with
  | none => []
  | some n =>
    match n.kind with
    | .object =>
      n.fields.flatMap (fun f =>
        f.type :: (match heap[f.type]? with
                   | some fn => fn.elementType.toList
                   | none => []))
    | .array => n.elementType.toList
    | _ => []

/-- See `nodeDeps`. -/
def deps (heap : Heap) (r : TyRef) : List TyRef :=
  (nodeDeps heap r).filter (fun d => d < heap.length)

/-- One step of the node-collection phase of `topologicalSortTypes`
(`addTypeToGraph`): pop a reference; skip it when already visited (or not a
live node); otherwise record it and push its dependencies. -/
def collectStep (heap : Heap) :
    List TyRef × List Nat → List TyRef × List Nat
  | ([], visited) => ([], visited)
  | (r :: rest, visited) =>
    if r ∈ visited then (rest, visited)
    else if r < heap.length then (deps heap r ++ rest, r :: visited)
    else (rest, visited)

/-- Iterate `collectStep`. -/
def collectIter (heap : Heap) :
    Nat → List TyRef × List Nat → List TyRef × List Nat
  | 0, s => s
  | n + 1, s => collectIter heap n (collectStep heap s)

/-- A fuel bound under which the iteration always drains its work list:
every step pops one work item, and the only pushes are the dependency
lists of fresh in-range nodes, each of which is pushed at most once — so
the number of pops never exceeds the initial work length plus the total
size of all dependency lists. -/
def collectFuel (heap : Heap) (entries : List TyRef) : Nat :=
  entries.length +
    (List.range heap.length).foldl (fun acc r => acc + (deps heap r).length) 0

/-- One dependency step: `b` is a recorded dependency of `a`. -/
def stepRel (heap : Heap) (a b : TyRef) : Prop := b ∈ deps heap a

lemma deps_lt (heap : Heap) {a d : TyRef} (h : d ∈ deps heap a) :
    d < heap.length := by
  simp only [deps, List.mem_filter, decide_eq_true_eq] at h
  exact h.2

lemma collectStep_reach (heap : Heap) (E : List TyRef)
    (s : List TyRef × List Nat)
    (hw : ∀ x ∈ s.1, ∃ w ∈ E, Relation.ReflTransGen (stepRel heap) w x)
    (hv : ∀ x ∈ s.2, ∃ w ∈ E, Relation.ReflTransGen (stepRel heap) w x) :
    (∀ x ∈ (collectStep heap s).1,
      ∃ w ∈ E, Relation.ReflTransGen (stepRel heap) w x) ∧
    (∀ x ∈ (collectStep heap s).2,
      ∃ w ∈ E, Relation.ReflTransGen (stepRel heap) w x) := by
  obtain ⟨work, visited⟩ := s
  cases work with
  | nil => exact ⟨hw, hv⟩
  | cons r rest =>
    simp only [collectStep]
    split
    · exact ⟨fun x hx => hw x (by simp [hx]), hv⟩
    · split
      · constructor
        · intro x hx
          rcases List.mem_append.mp hx with hx | hx
          · obtain ⟨w, hwE, hwr⟩ := hw r (by simp)
            exact ⟨w, hwE, hwr.tail (hx : stepRel heap r x)⟩
          · exact hw x (by simp [hx])
        · intro x hx
          rcases List.mem_cons.mp hx with rfl | hx
          · exact hw x (by simp)
          · exact hv x hx
      · exact ⟨fun x hx => hw x (by simp [hx]), hv⟩

lemma collectIter_reach (heap : Heap) (E : List TyRef) :
    ∀ (n : Nat) (s : List TyRef × List Nat),
      (∀ x ∈ s.1, ∃ w ∈ E, Relation.ReflTransGen (stepRel heap) w x) →
      (∀ x ∈ s.2, ∃ w ∈ E, Relation.ReflTransGen (stepRel heap) w x) →
      ∀ x ∈ (collectIter heap n s).2,
        ∃ w ∈ E, Relation.ReflTransGen (stepRel heap) w x := by
  intro n
  induction n with
  | zero => intro s hw hv; exact hv
  | succ n ih =>
    intro s hw hv
    have hstep := collectStep_reach heap E s hw hv
    exact ih (collectStep heap s) hstep.1 hstep.2

lemma collectStep_nodup (heap : Heap) (s : List TyRef × List Nat)
    (h : s.2.Nodup) : (collectStep heap s).2.Nodup := by
  obtain ⟨work, visited⟩ := s
  cases work with
  | nil => exact h
  | cons r rest =>
    simp only [collectStep]
    split
    · exact h
    · split
      · exact List.Nodup.cons (by assumption) h
      · exact h

lemma collectIter_nodup (heap : Heap) :
    ∀ (n : Nat) (s : List TyRef × List Nat),
      s.2.Nodup → (collectIter heap n s).2.Nodup := by
  intro n
  induction n with
  | zero => intro s h; exact h
  | succ n ih => intro s h; exact ih _ (collectStep_nodup heap s h)

/-- `idToType[id].Name`, the key gonum's `SortStabilized` breaks ties by. -/
def nodeName (heap : Heap) (r : TyRef) : String :=
  (heap[r]?.getD goZeroTy).name

/-- A node is ready when each of its dependencies has been emitted (its
in-degree in the remaining graph is zero). -/
def isReady (heap : Heap) (done : List TyRef) (r : TyRef) : Bool :=
  (deps heap r).all (fun d => done.contains d)

/-- The smallest-name element of a candidate list (first on ties). -/
def pickMinName (heap : Heap) : List TyRef → Option TyRef
  | [] => none
  | r :: rs =>
    some (rs.foldl (fun best x =>
      if nodeName heap x < nodeName heap best then x else best) r)

lemma foldl_minName_mem (heap : Heap) :
    ∀ (rs : List TyRef) (r : TyRef),
      rs.foldl (fun best x =>
        if nodeName heap x < nodeName heap best then x else best) r ∈ r :: rs := by
  intro rs
  induction rs with
  | nil => simp
  | cons x xs ih =>
    intro r
    simp only [List.foldl_cons]
    have hb : (if nodeName heap x < nodeName heap r then x else r) = x ∨
        (if nodeName heap x < nodeName heap r then x else r) = r := by
      split
      · exact Or.inl rfl
      · exact Or.inr rfl
    rcases List.mem_cons.mp (ih (if nodeName heap x < nodeName heap r then x
        else r)) with h | h
    · rcases hb with hb | hb <;> rw [h, hb] <;> simp
    · exact List.mem_cons_of_mem _ (List.mem_cons_of_mem _ h)

lemma pickMinName_mem (heap : Heap) {l : List TyRef} {r : TyRef}
    (h : pickMinName heap l = some r) : r ∈ l := by
  cases l with
  | nil => cases h
  | cons a rs =>
    simp only [pickMinName, Option.some.injEq] at h
    rw [← h]
    exact foldl_minName_mem heap rs a

/-- The emission loop of the stabilized topological sort: repeatedly emit
the ready node with the smallest name; report a cycle (`none`) when nodes
remain but none is ready. -/
def kahnGo (heap : Heap) : Nat → List TyRef → List TyRef →
    Option (List TyRef)
  | 0, pending, done => if pending.isEmpty then some done else none
  | fuel + 1, pending, done =>
    if pending.isEmpty then some done
    else
      match pickMinName heap (pending.filter (isReady heap done)) with
      | none => none
      | some r => kahnGo heap fuel (pending.erase r) (done ++ [r])

/-- `topologicalSortTypes` from the source: empty entry list short-circuits
to an empty result; otherwise collect every type reachable from the entry
points into a graph and sort it topologically with name-stabilized ties
(`topo.SortStabilized`), failing on a cycle. -/
def topologicalSortTypes (heap : Heap) (entryTypes : List TyRef) :
    Option (List TyRef) :=
  if entryTypes.isEmpty then some []
  else
    let entries := entryTypes.filter (fun r => r < heap.length)
    let ns :=
      (collectIter heap (collectFuel heap entries) (entries, [])).2.reverse
    kahnGo heap ns.length ns []

/-- Every dependency of the node at position `i` appears strictly before
`i`. -/
def depsBefore (heap : Heap) (L : List TyRef) : Prop :=
  ∀ (i : Nat) (hi : i < L.length), ∀ d ∈ deps heap (L.get ⟨i, hi⟩),
    d ∈ L.take i

lemma depsBefore_nil (heap : Heap) : depsBefore heap [] := by
  intro i hi
  exact absurd hi (by simp)

lemma depsBefore_append (heap : Heap) (L : List TyRef) (r : TyRef)
    (h : depsBefore heap L) (hr : ∀ d ∈ deps heap r, d ∈ L) :
    depsBefore heap (L ++ [r]) := by
  intro i hi d hd
  by_cases hil : i < L.length
  · have hget : (L ++ [r]).get ⟨i, hi⟩ = L.get ⟨i, hil⟩ := by
      simp [List.getElem_append_left hil]
    rw [hget] at hd
    have := h i hil d hd
    rwa [List.take_append_of_le_length (by omega)]
  · have hieq : i = L.length := by
      have := hi
      simp only [List.length_append, List.length_singleton] at this
      omega
    subst hieq
    have hget : (L ++ [r]).get ⟨L.length, hi⟩ = r := by
      simp
    rw [hget] at hd
    rw [List.take_left]
    exact hr d hd

lemma kahnGo_perm (heap : Heap) :
    ∀ (fuel : Nat) (pending done L : List TyRef),
      kahnGo heap fuel pending done = some L → L.Perm (done ++ pending) := by
  intro fuel
  induction fuel with
  | zero =>
    intro pending done L h
    simp only [kahnGo] at h
    split at h
    · cases h
      rename_i hemp
      rw [List.isEmpty_iff.mp hemp]
      simp
    · cases h
  | succ fuel ih =>
    intro pending done L h
    simp only [kahnGo] at h
    split at h
    · cases h
      rename_i hemp
      rw [List.isEmpty_iff.mp hemp]
      simp
    · cases hpick : pickMinName heap (pending.filter (isReady heap done)) with
      | none => rw [hpick] at h; cases h
      | some r =>
        rw [hpick] at h
        have hmem : r ∈ pending :=
          List.mem_of_mem_filter (pickMinName_mem heap hpick)
        have hperm := ih (pending.erase r) (done ++ [r]) L h
        have hstep : (done ++ [r] ++ pending.erase r).Perm (done ++ pending) := by
          rw [List.append_assoc]
          exact List.Perm.append_left done (List.perm_cons_erase hmem).symm
        exact hperm.trans hstep

lemma kahnGo_depsBefore (heap : Heap) :
    ∀ (fuel : Nat) (pending done L : List TyRef),
      kahnGo heap fuel pending done = some L → depsBefore heap done →
      depsBefore heap L := by
  intro fuel
  induction fuel with
  | zero =>
    intro pending done L h hdone
    simp only [kahnGo] at h
    split at h
    · cases h; exact hdone
    · cases h
  | succ fuel ih =>
    intro pending done L h hdone
    simp only [kahnGo] at h
    split at h
    · cases h; exact hdone
    · cases hpick : pickMinName heap (pending.filter (isReady heap done)) with
      | none => rw [hpick] at h; cases h
      | some r =>
        rw [hpick] at h
        have hready : isReady heap done r = true :=
          List.of_mem_filter (pickMinName_mem heap hpick)
        have hdep : ∀ d ∈ deps heap r, d ∈ done := by
          intro d hd
          have := (List.all_eq_true.mp hready) d hd
          exact List.mem_of_elem_eq_true this
        exact ih _ _ L h (depsBefore_append heap done r hdone hdep)

lemma mem_take_index {α : Type} (K : List α) (i : Nat) (b : α)
    (hb : b ∈ K.take i) :
    ∃ (j : Nat) (hj : j < K.length), j < i ∧ K.get ⟨j, hj⟩ = b := by
  obtain ⟨m, hm, hEq⟩ := List.mem_iff_getElem.mp hb
  have hlen : m < i ∧ m < K.length := by
    simpa [Nat.lt_min] using hm
  refine ⟨m, hlen.2, hlen.1, ?_⟩
  have h2 : (K.take i)[m] = K.get ⟨m, hlen.2⟩ := List.getElem_take K
  rw [← h2]
  exact hEq

lemma depsBefore_trans (heap : Heap) (K : List TyRef)
    (hK : depsBefore heap K) (i : Nat) (hi : i < K.length) (d : TyRef)
    (htg : Relation.TransGen (stepRel heap) (K.get ⟨i, hi⟩) d) :
    d ∈ K.take i := by
  induction htg with
  | single h => exact hK i hi _ h
  | tail htg hstep ih =>
    obtain ⟨j, hj, hji, hKj⟩ := mem_take_index K i _ ih
    have hd : _ ∈ K.take j := hK j hj _ (by rw [hKj]; exact hstep)
    exact List.take_subset_take_left K (Nat.le_of_lt hji) hd

/-- One step of the claim's reachability walk: from an object to a field's
type, from an array to its element type. -/
def specChildren (heap : Heap) (r : TyRef) : List TyRef :=
  match heap[r]? with
  | none => []
  | some n =>
    match n.kind with
    | .object => n.fields.map (·.type)
    | .array => n.elementType.toList
    | _ => []

/-- See `specChildren`. -/
def specStep (heap : Heap) (a b : TyRef) : Prop := b ∈ specChildren heap a

instance (heap : Heap) (a b : TyRef) : Decidable (specStep heap a b) :=
  inferInstanceAs (Decidable (b ∈ specChildren heap a))

lemma specStep_src_lt (heap : Heap) {a b : TyRef} (h : specStep heap a b) :
    a < heap.length := by
  unfold specStep specChildren at h
  cases hval : heap[a]? with
  | none => rw [hval] at h; exact absurd h (by simp)
  | some n => exact lt_length_of_getElem?_some hval

lemma specStep_to_stepRel (heap : Heap) {a b : TyRef}
    (h : specStep heap a b) (hb : b < heap.length) : stepRel heap a b := by
  have hmem : b ∈ nodeDeps heap a := by
    unfold specStep specChildren at h
    unfold nodeDeps
    cases hval : heap[a]? with
    | none => rw [hval] at h; exact absurd h (by simp)
    | some n =>
      rw [hval] at h
      dsimp only at h ⊢
      cases hk : n.kind <;> rw [hk] at h <;> dsimp only at h ⊢
      · exact absurd h (by simp)
      · exact absurd h (by simp)
      · obtain ⟨f, hf, hfb⟩ := List.mem_map.mp h
        exact List.mem_flatMap.mpr ⟨f, hf, by simp [hfb]⟩
      · exact h
      · exact absurd h (by simp)
  unfold stepRel deps
  exact List.mem_filter.mpr ⟨hmem, by simpa using hb⟩

lemma transGen_spec_src_lt (heap : Heap) {c d : TyRef}
    (h : Relation.TransGen (specStep heap) c d) : c < heap.length := by
  induction h using Relation.TransGen.head_induction_on with
  | base hstep => exact specStep_src_lt heap hstep
  | ih hstep htg ihp => exact specStep_src_lt heap hstep

lemma transGen_spec_to_step (heap : Heap) {a d : TyRef}
    (h : Relation.TransGen (specStep heap) a d) (hd : d < heap.length) :
    Relation.TransGen (stepRel heap) a d := by
  induction h using Relation.TransGen.head_induction_on with
  | base hstep =>
    exact Relation.TransGen.single (specStep_to_stepRel heap hstep hd)
  | ih hstep htg ihp =>
    have hmid := transGen_spec_src_lt heap htg
    exact Relation.TransGen.head (specStep_to_stepRel heap hstep hmid) ihp

lemma filter_take_eq (p : TyRef → Bool) (K : List TyRef) (hnd : K.Nodup)
    (i : Nat) (hi : i < (K.filter p).length)
    (j : Nat) (hj : j < K.length)
    (heq : (K.filter p).get ⟨i, hi⟩ = K.get ⟨j, hj⟩) :
    (K.filter p).take i = (K.take j).filter p := by
  have hKdec : K = K.take j ++ K.get ⟨j, hj⟩ :: K.drop (j + 1) := by
    conv_lhs => rw [← List.take_append_drop j K]
    rw [List.drop_eq_getElem_cons hj]
    simp [List.get_eq_getElem]
  have hpr : p (K.get ⟨j, hj⟩) = true := by
    have hmem : K.get ⟨j, hj⟩ ∈ K.filter p := by
      rw [← heq]; exact List.get_mem _ _ _
    exact List.of_mem_filter hmem
  have hLdec : K.filter p
      = (K.take j).filter p ++
        K.get ⟨j, hj⟩ :: (K.drop (j + 1)).filter p := by
    conv_lhs => rw [hKdec]
    rw [List.filter_append, List.filter_cons_of_pos hpr]
  have hiq : (K.filter p)[i]? = some (K.get ⟨j, hj⟩) := by
    rw [List.getElem?_eq_getElem hi, ← heq]
    simp [List.get_eq_getElem]
  have hAq : (K.filter p)[((K.take j).filter p).length]?
      = some (K.get ⟨j, hj⟩) := by
    rw [hLdec, List.getElem?_append_right (Nat.le_refl _)]
    simp
  have hieq : i = ((K.take j).filter p).length := by
    obtain ⟨hAlt, hAeq⟩ := List.getElem?_eq_some.mp hAq
    obtain ⟨hilt, hieq2⟩ := List.getElem?_eq_some.mp hiq
    have hndL : (K.filter p).Nodup := List.Nodup.filter p hnd
    exact (List.Nodup.getElem_inj_iff hndL).mp (hieq2.trans hAeq.symm)
  rw [hieq, hLdec]
  exact List.take_left _ _

/-- `ty.IsNamed` read through a pointer (the complement of the
`slices.DeleteFunc` predicate that drops unnamed types). -/
def isNamedRef (heap : Heap) (r : TyRef) : Bool :=
  (heap[r]?.getD goZeroTy).isNamed

lemma isNamedRef_lt (heap : Heap) {d : TyRef}
    (h : isNamedRef heap d = true) : d < heap.length := by
  unfold isNamedRef at h
  cases hval : heap[d]? with
  | none => rw [hval] at h; exact absurd h (by simp [goZeroTy])
  | some n => exact lt_length_of_getElem?_some hval

lemma specStep_of_object (heap : Heap) {a : TyRef} {n : TyNode}
    (hval : heap[a]? = some n) (hk : n.kind = .object) {f : TyField}
    (hf : f ∈ n.fields) : specStep heap a f.type := by
  unfold specStep specChildren
  rw [hval]
  dsimp only
  rw [hk]
  dsimp only
  exact List.mem_map_of_mem _ hf

lemma specStep_of_array (heap : Heap) {a b : TyRef} {n : TyNode}
    (hval : heap[a]? = some n) (hk : n.kind = .array)
    (he : n.elementType = some b) : specStep heap a b := by
  unfold specStep specChildren
  rw [hval]
  dsimp only
  rw [hk]
  dsimp only
  rw [he]
  simp

lemma stepRel_to_spec (heap : Heap)
    (hwf : ∀ n ∈ heap, n.elementType.isSome = true → n.kind = .array)
    {a b : TyRef} (hab : stepRel heap a b) :
    Relation.TransGen (specStep heap) a b := by
  unfold stepRel deps at hab
  rw [List.mem_filter] at hab
  obtain ⟨hmem, hblt⟩ := hab
  unfold nodeDeps at hmem
  cases hval : heap[a]? with
  | none => rw [hval] at hmem; exact absurd hmem (by simp)
  | some n =>
    rw [hval] at hmem
    dsimp only at hmem
    cases hk : n.kind <;> rw [hk] at hmem <;> dsimp only at hmem
    · exact absurd hmem (by simp)
    · exact absurd hmem (by simp)
    · obtain ⟨f, hf, hbf⟩ := List.mem_flatMap.mp hmem
      rcases List.mem_cons.mp hbf with rfl | hbf2
      · exact Relation.TransGen.single (specStep_of_object heap hval hk hf)
      · cases hft : heap[f.type]? with
        | none => rw [hft] at hbf2; exact absurd hbf2 (by simp)
        | some fn =>
          rw [hft] at hbf2
          dsimp only at hbf2
          have helem : fn.elementType = some b := by
            cases he : fn.elementType with
            | none => rw [he] at hbf2; exact absurd hbf2 (by simp)
            | some x =>
              rw [he] at hbf2
              simp only [Option.toList_some, List.mem_singleton] at hbf2
              rw [hbf2]
          have hkind : fn.kind = .array :=
            hwf fn (List.getElem?_mem hft) (by rw [helem]; rfl)
          exact Relation.TransGen.head (specStep_of_object heap hval hk hf)
            (Relation.TransGen.single
              (specStep_of_array heap hft hkind helem))
    · refine Relation.TransGen.single (specStep_of_array heap hval hk ?_)
      cases he : n.elementType with
      | none => rw [he] at hmem; exact absurd hmem (by simp)
      | some x =>
        rw [he] at hmem
        simp only [Option.toList_some, List.mem_singleton] at hmem
        rw [hmem]
    · exact absurd hmem (by simp)

lemma rtg_step_to_spec (heap : Heap)
    (hwf : ∀ n ∈ heap, n.elementType.isSome = true → n.kind = .array)
    {a b : TyRef} (h : Relation.ReflTransGen (stepRel heap) a b) :
    Relation.ReflTransGen (specStep heap) a b := by
  induction h with
  | refl => exact Relation.ReflTransGen.refl
  | tail h1 h2 ih =>
    exact ih.trans (stepRel_to_spec heap hwf h2).to_reflTransGen

/-- The entry types of a module: every handler's request body then response
body when non-nil, deduplicated by pointer identity (`slices.Compact`
after the address sort). -/
def moduleEntryTypes (handlers : List HttpHandler) : List TyRef :=
  (handlers.flatMap
    (fun h => h.requestBody.toList ++ h.responseBody.toList)).dedup

/-- The per-module tail of `assignTypesToModules` (parser.go:897-931): a
module whose type list is empty is skipped; otherwise the list is replaced
wholesale by the topological sort of everything reachable from the
handlers' entry types, with unnamed types filtered out. -/
def finalModuleTypes (heap : Heap) (assigned : List TyRef)
    (handlers : List HttpHandler) : Option (List TyRef) :=
  if assigned.isEmpty then some assigned
  else
    (topologicalSortTypes heap (moduleEntryTypes handlers)).map
      (fun L => L.filter (fun r => isNamedRef heap r))

/-- C7: in every grouping whose build succeeds, every named type reachable
from the type at position `i` of the final ordered list — walking object
fields and array element types — appears at a position strictly less than
`i` (i.e. within the first `i` elements). -/
theorem c7_topological_validity (heap : Heap) (assigned : List TyRef)
    (handlers : List HttpHandler) (L : List TyRef)
    (hL : finalModuleTypes heap assigned handlers = some L)
    (i : Nat) (hi : i < L.length) (d : TyRef)
    (hreach : Relation.TransGen (specStep heap) (L.get ⟨i, hi⟩) d)
    (hnamed : isNamedRef heap d = true) :
    d ∈ L.take i := by
  unfold finalModuleTypes at hL
  split at hL
  · rename_i hemp
    simp only [Option.some.injEq] at hL
    subst hL
    rw [List.isEmpty_iff.mp hemp] at hi
    exact absurd hi (by simp)
  · rw [Option.map_eq_some'] at hL
    obtain ⟨K, hK, hLK⟩ := hL
    unfold topologicalSortTypes at hK
    split at hK
    · simp only [Option.some.injEq] at hK
      subst hK
      subst hLK
      exact absurd hi (by simp)
    · dsimp only at hK
      have hdb : depsBefore heap K :=
        kahnGo_depsBefore heap _ _ _ K hK (depsBefore_nil heap)
      have hperm : K.Perm _ := kahnGo_perm heap _ _ _ K hK
      have hnd : K.Nodup := by
        refine (List.Perm.nodup_iff hperm).mpr ?_
        simp only [List.nil_append, List.nodup_reverse]
        exact collectIter_nodup heap _ _ (by simp)
      subst hLK
      have hrK : (K.filter (fun r => isNamedRef heap r)).get ⟨i, hi⟩ ∈ K :=
        List.mem_of_mem_filter (List.get_mem _ _ _)
      obtain ⟨j, hj, hKj⟩ := List.mem_iff_getElem.mp hrK
      have hdlt : d < heap.length := isNamedRef_lt heap hnamed
      have hreach2 : Relation.TransGen (stepRel heap) (K.get ⟨j, hj⟩) d := by
        have h2 := transGen_spec_to_step heap hreach hdlt
        rw [List.get_eq_getElem, hKj]
        exact h2
      have hdK : d ∈ K.take j := depsBefore_trans heap K hdb j hj d hreach2
      have htake := filter_take_eq (fun r => isNamedRef heap r) K hnd i hi
        j hj (by rw [List.get_eq_getElem, List.get_eq_getElem]; exact hKj.symm)
      rw [htake]
      exact List.mem_filter.mpr ⟨hdK, by simpa using hnamed⟩

/-- C10: in every grouping whose build succeeds, the final type list
contains only types reachable — walking object fields and array element
types — from some handler's request or response body; in particular a type
explicitly assigned to the grouping but not reachable from any such entry
point is absent, because the list is replaced wholesale by the
entry-point-rooted sort result.  The well-formedness hypothesis (element
types only on array nodes) holds for every heap the converter builds. -/
theorem c10_only_entry_reachable_types (heap : Heap)
    (assigned : List TyRef) (handlers : List HttpHandler) (L : List TyRef)
    (hwf : ∀ n ∈ heap, n.elementType.isSome = true → n.kind = .array)
    (hL : finalModuleTypes heap assigned handlers = some L) :
    (∀ r ∈ L, ∃ hh ∈ handlers, ∃ e : TyRef,
      (hh.requestBody = some e ∨ hh.responseBody = some e) ∧
      Relation.ReflTransGen (specStep heap) e r) ∧
    (∀ t ∈ assigned,
      (∀ hh ∈ handlers, ∀ e : TyRef,
        hh.requestBody = some e ∨ hh.responseBody = some e →
        ¬ Relation.ReflTransGen (specStep heap) e t) → t ∉ L) := by
  have hmain : ∀ r ∈ L, ∃ hh ∈ handlers, ∃ e : TyRef,
      (hh.requestBody = some e ∨ hh.responseBody = some e) ∧
      Relation.ReflTransGen (specStep heap) e r := by
    intro r hrL
    unfold finalModuleTypes at hL
    split at hL
    · rename_i hemp
      simp only [Option.some.injEq] at hL
      subst hL
      rw [List.isEmpty_iff.mp hemp] at hrL
      exact absurd hrL (by simp)
    · rw [Option.map_eq_some'] at hL
      obtain ⟨K, hK, hLK⟩ := hL
      subst hLK
      have hrK : r ∈ K := List.mem_of_mem_filter hrL
      unfold topologicalSortTypes at hK
      split at hK
      · simp only [Option.some.injEq] at hK
        subst hK
        exact absurd hrK (by simp)
      · dsimp only at hK
        have hperm : K.Perm _ := kahnGo_perm heap _ _ _ K hK
        have hrns := (List.Perm.mem_iff hperm).mp hrK
        simp only [List.nil_append, List.mem_reverse] at hrns
        have hreach := collectIter_reach heap
          ((moduleEntryTypes handlers).filter (fun r => r < heap.length))
          (collectFuel heap
            ((moduleEntryTypes handlers).filter (fun r => r < heap.length)))
          (((moduleEntryTypes handlers).filter (fun r => r < heap.length)),
            [])
          (fun x hx => ⟨x, hx, Relation.ReflTransGen.refl⟩)
          (fun x hx => absurd hx (by simp))
          r hrns
        obtain ⟨w, hwE, hwr⟩ := hreach
        have hwE2 : w ∈ moduleEntryTypes handlers :=
          List.mem_of_mem_filter hwE
        unfold moduleEntryTypes at hwE2
        rw [List.mem_dedup] at hwE2
        obtain ⟨hh, hhm, hw2⟩ := List.mem_flatMap.mp hwE2
        have hsrc : hh.requestBody = some w ∨ hh.responseBody = some w := by
          rcases List.mem_append.mp hw2 with h | h
          · left
            rw [Option.mem_toList, Option.mem_def] at h
            exact h
          · right
            rw [Option.mem_toList, Option.mem_def] at h
            exact h
        exact ⟨hh, hhm, w, hsrc, rtg_step_to_spec heap hwf hwr⟩
  refine ⟨hmain, ?_⟩
  intro t ht hnone htL
  obtain ⟨hh, hhm, e, he, hr⟩ := hmain t htL
  exact hnone hh hhm e he hr

/-- Witness heap for the topological-sort theorems: `0 = B` (named object,
no dependencies), `1 = A` (named object with a field of type `B`). -/
def topoHeap : Heap :=
  [{ name := "B", kind := .object, isNamed := true },
   { name := "A", kind := .object, isNamed := true,
     fields := [{ name := "b", type := 0 }] }]

/-- Witness handler: its response body is `A`. -/
def topoHandler : HttpHandler :=
  { name := "getA", method := "GET", responseBody := some 1 }

/-- Witness for `c7_topological_validity`: in the sorted list `[B, A]`,
the dependency `B` of `A` (at position 1) appears among the first 1
elements. -/
theorem c7_witness : (0 : TyRef) ∈ ([0, 1] : List TyRef).take 1 :=
  c7_topological_validity topoHeap [1] [topoHandler] [0, 1] (by decide)
    1 (by decide) 0
    (Relation.TransGen.single (by decide))
    (by decide)

/-- Witness for `c10_only_entry_reachable_types`: the type `B` in the
final list is reachable from the handler's response body. -/
theorem c10_witness :
    ∃ hh ∈ [topoHandler], ∃ e : TyRef,
      (hh.requestBody = some e ∨ hh.responseBody = some e) ∧
      Relation.ReflTransGen (specStep topoHeap) e 0 :=
  (c10_only_entry_reachable_types topoHeap [1] [topoHandler] [0, 1]
    (by decide) (by decide)).1 0 (by decide)

end CozeSdkGen
